import Mathlib

set_option maxHeartbeats 1000000

/-! Shallow embedding of the clustering engine in clustering/clustering.go
(package clustering).

Numeric model: Go float32 values are modelled as exact rationals; the source
computes the same algebraic expressions up to float32 rounding, and the claims
below concern the exact algebraic content (centroid formula, Ward formula,
comparisons against the math.MaxFloat32 sentinel).

Go slices are modelled as lists. A Go index expression panics when out of
range; the model reads out-of-range positions with a getD default. On every
execution the claims concern, all reads are in range, so the defaults are
never observable.

The unbounded Go for-loop in PerformClusteringWithConstraints (and its
verbatim copy in splitCluster) is modelled with an explicit fuel parameter;
returning none means the fuel ran out, which the termination theorem for the
loop shows never has to happen for a large enough fuel. -/

/-- Value of Go math.MaxFloat32, the sentinel the source stores into the
distance matrix to exclude a pair, and the initial minimum in
FindClosestClusters. -/
def maxFloat32 : ℚ := 340282346638528859811704183484516925440

/-- Cluster represents a cluster of data points (clustering.go lines 10-15):
indices of the data points, the number of them, and the centroid vector. -/
structure Cluster where
  Indices : List Nat
  Size : Nat
  Centroid : List ℚ
deriving Repr, DecidableEq

/-- Zero value used as the getD default for cluster reads; Go would panic on
the corresponding out-of-range read, which never happens in the executions
the claims concern. -/
def emptyCluster : Cluster := { Indices := [], Size := 0, Centroid := [] }

/-- Read embedding i (Go embeddings[i]). -/
def getEmb (embeddings : List (List ℚ)) (i : Nat) : List ℚ := embeddings.getD i []

/-- Read cluster i (Go clusters[i]). -/
def getCluster (clusters : List Cluster) (i : Nat) : Cluster :=
  clusters.getD i emptyCluster

/-- Read matrix entry (Go distanceMatrix[i][j]). -/
def entryD (m : List (List ℚ)) (i j : Nat) : ℚ := (m.getD i []).getD j 0

/-- NewCluster creates a new cluster with a single data point (lines 17-26). -/
def NewCluster (index : Nat) (embedding : List ℚ) : Cluster :=
  { Indices := [index], Size := 1, Centroid := embedding }

/-- MergeClusters merges two clusters into a new cluster (lines 28-47):
concatenated indices, summed sizes, and the size-weighted mean centroid,
computed component by component over the length of the first centroid. -/
def MergeClusters (a b : Cluster) : Cluster :=
  let indices := a.Indices ++ b.Indices
  let size := a.Size + b.Size
  let centroid := (List.range a.Centroid.length).map fun i =>
    ((a.Size : ℚ) * a.Centroid.getD i 0 + (b.Size : ℚ) * b.Centroid.getD i 0) / (size : ℚ)
  { Indices := indices, Size := size, Centroid := centroid }

/-- RemoveClusters removes clusters at indices i and j (lines 49-58): the
arguments are swapped so that i < j, then index j is removed first and
index i second. -/
def RemoveClusters (clusters : List Cluster) (i j : Nat) : List Cluster :=
  let p := if i > j then (j, i) else (i, j)
  (clusters.eraseIdx p.2).eraseIdx p.1

/-- DotFloat32 computes the dot product of two float32 slices (lines 148-157).
The source panics when the lengths differ; every application in the source is
to two vectors of the same length, and the model reads position i of b with a
getD default in the other case. -/
def DotFloat32 (a b : List ℚ) : ℚ :=
  ((List.range a.length).map fun i => a.getD i 0 * b.getD i 0).sum

/-- WardDistance calculates the Ward linkage distance between two clusters
(lines 136-145): sizeA*sizeB/(sizeA+sizeB) times the squared euclidean
distance of the centroids, the difference being taken over the length of the
first centroid. -/
def WardDistance (a b : Cluster) : ℚ :=
  let diff := (List.range a.Centroid.length).map fun i =>
    a.Centroid.getD i 0 - b.Centroid.getD i 0
  let distanceSquared := DotFloat32 diff diff
  let numerator : ℚ := ((a.Size * b.Size : Nat) : ℚ)
  let denominator : ℚ := ((a.Size + b.Size : Nat) : ℚ)
  numerator / denominator * distanceSquared

/-- ComputeInitialDistanceMatrix (lines 60-74). The source allocates each row
as a zero row and, for every j < i, writes the computed distance into both
[i][j] and [j][i]; functionally, entry (i,j) is 0 on the diagonal and off it
the Ward distance of the higher-index cluster against the lower-index one. -/
def ComputeInitialDistanceMatrix (clusters : List Cluster) : List (List ℚ) :=
  let n := clusters.length
  (List.range n).map fun i => (List.range n).map fun j =>
    if i = j then 0
    else if j < i then WardDistance (getCluster clusters i) (getCluster clusters j)
    else WardDistance (getCluster clusters j) (getCluster clusters i)

/-- RemoveRowsAndColumns (lines 98-115): the arguments are swapped so that
i < j; column j then column i is removed from every row, then row j and
row i are removed. -/
def RemoveRowsAndColumns (matrix : List (List ℚ)) (i j : Nat) : List (List ℚ) :=
  let p := if i > j then (j, i) else (i, j)
  let m := matrix.map fun row => (row.eraseIdx p.2).eraseIdx p.1
  (m.eraseIdx p.2).eraseIdx p.1

/-- UpdateDistanceMatrix (lines 76-96): removes the two merged rows/columns,
computes the new row of distances from every surviving cluster to the new
cluster (clusters is the already-updated list, with the new cluster last,
n = len(clusters)); entry n-1 of the new row is 0 (distance to itself);
the new row is appended as both a column (one entry onto each of the first
n-1 rows) and the last row. -/
def UpdateDistanceMatrix (distanceMatrix : List (List ℚ)) (clusters : List Cluster)
    (newCluster : Cluster) (removedIdx1 removedIdx2 : Nat) : List (List ℚ) :=
  let m := RemoveRowsAndColumns distanceMatrix removedIdx1 removedIdx2
  let n := clusters.length
  let newRow := (List.range n).map fun i =>
    if i = n - 1 then 0 else WardDistance (getCluster clusters i) newCluster
  let m2 := (List.range m.length).map fun i =>
    if i < n - 1 then m.getD i [] ++ [newRow.getD i 0] else m.getD i []
  m2 ++ [newRow]

/-- FindClosestClusters (lines 118-133): scans rows i = 0..n-1 and, inside
row i, columns j = 0..i-1, keeping the strictly smallest entry seen so far;
the minimum starts at math.MaxFloat32 and the result starts at (-1,-1). -/
def FindClosestClusters (distanceMatrix : List (List ℚ)) : Int × Int :=
  let n := distanceMatrix.length
  let st := (List.range n).foldl
    (fun st i => (List.range i).foldl
      (fun st j =>
        if entryD distanceMatrix i j < st.1 then
          (entryD distanceMatrix i j, ((i : Int), (j : Int)))
        else st)
      st)
    (maxFloat32, ((-1 : Int), (-1 : Int)))
  st.2

/-- Number of clusters needed so that none must exceed maxSize: the source
computes int(math.Ceil(float64(totalItems)/float64(maxSize))) (line 173).
The model uses the integer form of the ceiling of the quotient; the theorem
nClustersMinOf_eq_ceil below proves it equal to the ceiling of the exact
rational quotient for every positive maxSize, which is what the float64
computation produces at these magnitudes. -/
def nClustersMinOf (totalItems maxSize : Nat) : Nat :=
  (totalItems + maxSize - 1) / maxSize

/-- Number of clusters possible so that none must fall below minSize: the
source computes int(math.Floor(float64(totalItems)/float64(minSize)))
(line 174); nClustersMaxOf_eq_floor below identifies this with the floor of
the exact rational quotient. -/
def nClustersMaxOf (totalItems minSize : Nat) : Nat :=
  totalItems / minSize

/-- CalculateOptimalClusters (lines 159-186). -/
def CalculateOptimalClusters (totalItems minSize maxSize : Nat) : Except String Nat :=
  if totalItems < minSize then
    Except.error "total items less than minimum cluster size"
  else
    let nClustersMin := nClustersMinOf totalItems maxSize
    let nClustersMax := nClustersMaxOf totalItems minSize
    if nClustersMin > nClustersMax then
      Except.error "cannot satisfy cluster size constraints"
    else if nClustersMin < nClustersMax then
      Except.ok ((nClustersMin + nClustersMax) / 2)
    else
      Except.ok nClustersMin

/-- The two sentinel writes of the exclusion step (lines 230-231 and 334-335):
distanceMatrix[i][j] and distanceMatrix[j][i] are set to math.MaxFloat32. -/
def markExcluded (m : List (List ℚ)) (i j : Nat) : List (List ℚ) :=
  let m1 := m.set i ((m.getD i []).set j maxFloat32)
  m1.set j ((m1.getD j []).set i maxFloat32)

/-- The agglomeration loop (lines 220-246, repeated verbatim for sub-clusters
at lines 318-344): while more clusters are live than the target, find the
closest pair; stop if none; exclude the pair if merging would exceed maxSize;
otherwise merge, remove the two, append the merged cluster and rebuild the
matrix. Fuel only bounds the number of iterations of the model. -/
def clusteringLoop (maxSize nClusters : Nat) :
    Nat → List Cluster → List (List ℚ) → Option (List Cluster)
  | 0, _, _ => none
  | fuel + 1, clusters, distanceMatrix =>
    if clusters.length ≤ nClusters then some clusters
    else
      let ij := FindClosestClusters distanceMatrix
      if ij.1 = -1 ∨ ij.2 = -1 then some clusters
      else
        let i := ij.1.toNat
        let j := ij.2.toNat
        if (getCluster clusters i).Size + (getCluster clusters j).Size > maxSize then
          clusteringLoop maxSize nClusters fuel clusters (markExcluded distanceMatrix i j)
        else
          let newCluster := MergeClusters (getCluster clusters i) (getCluster clusters j)
          let clusters2 := RemoveClusters clusters i j ++ [newCluster]
          let m2 := UpdateDistanceMatrix distanceMatrix clusters2 newCluster i j
          clusteringLoop maxSize nClusters fuel clusters2 m2

/-- splitCluster (lines 284-348): gather the member vectors, estimate the
sub-cluster count with minSize 1, start from singleton sub-clusters indexed
by position inside subEmbeddings, and run the same agglomeration loop.
Result some none models the Go (nil, false) return on estimator error;
some (some cs) models (cs, true); none means the model ran out of fuel. -/
def splitCluster (fuel : Nat) (cluster : Cluster) (embeddings : List (List ℚ))
    (maxSize : Nat) : Option (Option (List Cluster)) :=
  let subEmbeddings := cluster.Indices.map fun idx => getEmb embeddings idx
  let subTotalItems := subEmbeddings.length
  match CalculateOptimalClusters subTotalItems 1 maxSize with
  | Except.error _ => some none
  | Except.ok nSubClusters =>
    let subClusters := (List.range subTotalItems).map fun i =>
      NewCluster i (getEmb subEmbeddings i)
    let subDistanceMatrix := ComputeInitialDistanceMatrix subClusters
    match clusteringLoop maxSize nSubClusters fuel subClusters subDistanceMatrix with
    | none => none
    | some subClusters2 => some (some subClusters2)

/-- The oversized-cluster pass of PerformClusteringWithConstraints
(lines 248-262): clusters larger than maxSize are replaced by the result of
splitCluster, the others are kept; a failed split fails the whole run
(modelled some none). -/
def handleOversized (fuel : Nat) (embeddings : List (List ℚ)) (maxSize : Nat) :
    List Cluster → Option (Option (List Cluster))
  | [] => some (some [])
  | cluster :: rest =>
    if cluster.Size > maxSize then
      match splitCluster fuel cluster embeddings maxSize with
      | none => none
      | some none => some none
      | some (some subClusters) =>
        match handleOversized fuel embeddings maxSize rest with
        | none => none
        | some none => some none
        | some (some tail) => some (some (subClusters ++ tail))
    else
      match handleOversized fuel embeddings maxSize rest with
      | none => none
      | some none => some none
      | some (some tail) => some (some (cluster :: tail))

/-- The final conversion to a map (lines 264-279): clusters smaller than
minSize are skipped (the run still reports success); the others receive
sequential ids and their Indices are mapped through productReferenceIDs. -/
def clustersToMap (productReferenceIDs : List String) (minSize : Nat) :
    List Cluster → Nat → List (Nat × List String)
  | [], _ => []
  | cluster :: rest, clusterID =>
    if cluster.Size < minSize then clustersToMap productReferenceIDs minSize rest clusterID
    else
      (clusterID, cluster.Indices.map fun idx => productReferenceIDs.getD idx "") ::
        clustersToMap productReferenceIDs minSize rest (clusterID + 1)

/-- PerformClusteringWithConstraints (lines 188-282). The Go function returns
(nil, false) on estimator or split failure, modelled as some ([], false);
none means the model ran out of fuel. -/
def PerformClusteringWithConstraints (fuel : Nat) (embeddings : List (List ℚ))
    (productReferenceIDs : List String) (minSize maxSize : Nat) :
    Option (List (Nat × List String) × Bool) :=
  let totalItems := embeddings.length
  match CalculateOptimalClusters totalItems minSize maxSize with
  | Except.error _ => some ([], false)
  | Except.ok nClusters =>
    let clusters := (List.range totalItems).map fun i => NewCluster i (getEmb embeddings i)
    let distanceMatrix := ComputeInitialDistanceMatrix clusters
    match clusteringLoop maxSize nClusters fuel clusters distanceMatrix with
    | none => none
    | some clusters2 =>
      match handleOversized fuel embeddings maxSize clusters2 with
      | none => none
      | some none => some ([], false)
      | some (some finalClusters) =>
        some (clustersToMap productReferenceIDs minSize finalClusters 0, true)

/-! Basic list access lemmas used throughout. -/

theorem getD_range_map {α : Type} (f : Nat → α) (n p : Nat) (d : α) :
    (((List.range n).map f).getD p d) = if p < n then f p else d := by
  rcases Nat.lt_or_ge p n with h | h
  · rw [if_pos h, List.getD_eq_getElem?_getD, List.getElem?_map, List.getElem?_range h]
    rfl
  · rw [if_neg (Nat.not_lt.mpr h), List.getD_eq_getElem?_getD, List.getElem?_eq_none]
    · rfl
    · simpa using h

theorem natDiv_eq_natFloor (n m : Nat) (hm : 0 < m) :
    n / m = ⌊(n : ℚ) / (m : ℚ)⌋₊ := by
  rw [Nat.floor_div_nat ((n : ℚ)) m, Nat.floor_natCast]

theorem natCeilDiv_eq_natCeil (n m : Nat) (hm : 0 < m) :
    (n + m - 1) / m = ⌈(n : ℚ) / (m : ℚ)⌉₊ := by
  have hmQ : (0 : ℚ) < (m : ℚ) := by exact_mod_cast hm
  have h4 := Nat.div_add_mod (n + m - 1) m
  have h5 : (n + m - 1) % m < m := Nat.mod_lt _ hm
  apply le_antisymm
  · -- every k with n <= k*m dominates the ceiling quotient
    have hc : (n : ℚ) / m ≤ (⌈(n : ℚ) / (m : ℚ)⌉₊ : ℚ) := Nat.le_ceil _
    have h2 : (n : ℚ) ≤ (⌈(n : ℚ) / (m : ℚ)⌉₊ : ℚ) * m := by
      rwa [div_le_iff₀ hmQ] at hc
    have h3 : n ≤ ⌈(n : ℚ) / (m : ℚ)⌉₊ * m := by exact_mod_cast h2
    have h7 : n + m - 1 ≤ m - 1 + ⌈(n : ℚ) / (m : ℚ)⌉₊ * m := by omega
    calc (n + m - 1) / m ≤ (m - 1 + ⌈(n : ℚ) / (m : ℚ)⌉₊ * m) / m :=
          Nat.div_le_div_right h7
      _ = (m - 1) / m + ⌈(n : ℚ) / (m : ℚ)⌉₊ := Nat.add_mul_div_right _ _ hm
      _ = ⌈(n : ℚ) / (m : ℚ)⌉₊ := by
          rw [Nat.div_eq_of_lt (by omega)]
          omega
  · rw [Nat.ceil_le]
    have h1 : n ≤ m * ((n + m - 1) / m) := by omega
    rw [div_le_iff₀ hmQ]
    have h1Q : (n : ℚ) ≤ ((m : ℚ)) * (((n + m - 1) / m : Nat) : ℚ) := by exact_mod_cast h1
    linarith

/-- The model's nClustersMin is the ceiling of the exact quotient, as the
source's math.Ceil computes. -/
theorem nClustersMinOf_eq_ceil (n m : Nat) (hm : 0 < m) :
    (nClustersMinOf n m : ℤ) = ⌈(n : ℚ) / (m : ℚ)⌉ := by
  have hq : (0 : ℚ) ≤ (n : ℚ) / (m : ℚ) := by positivity
  rw [nClustersMinOf, natCeilDiv_eq_natCeil n m hm, ← Int.ceil_toNat,
    Int.toNat_of_nonneg (Int.ceil_nonneg hq)]

/-- The model's nClustersMax is the floor of the exact quotient, as the
source's math.Floor computes. -/
theorem nClustersMaxOf_eq_floor (n m : Nat) (hm : 0 < m) :
    (nClustersMaxOf n m : ℤ) = ⌊(n : ℚ) / (m : ℚ)⌋ := by
  have hq : (0 : ℚ) ≤ (n : ℚ) / (m : ℚ) := by positivity
  rw [nClustersMaxOf, natDiv_eq_natFloor n m hm, ← Int.floor_toNat,
    Int.toNat_of_nonneg (Int.floor_nonneg.mpr hq)]

/-- Helper predicate: does CalculateOptimalClusters report an error. -/
def isErrorResult (r : Except String Nat) : Bool :=
  match r with
  | Except.error _ => true
  | Except.ok _ => false

/-- Claim C4: on every feasible input, CalculateOptimalClusters succeeds and
returns K with ceil(n/maxSize) <= K <= floor(n/minSize); K is kMin when
kMin = kMax and the integer midpoint otherwise. -/
theorem calculateOptimalClusters_feasible (n minSize maxSize : Nat)
    (hmin : 1 ≤ minSize) (hmm : minSize ≤ maxSize) (hn : minSize ≤ n)
    (hfeas : nClustersMinOf n maxSize ≤ nClustersMaxOf n minSize) :
    ∃ K, CalculateOptimalClusters n minSize maxSize = Except.ok K ∧
      nClustersMinOf n maxSize ≤ K ∧ K ≤ nClustersMaxOf n minSize ∧
      K = (if nClustersMinOf n maxSize = nClustersMaxOf n minSize
           then nClustersMinOf n maxSize
           else (nClustersMinOf n maxSize + nClustersMaxOf n minSize) / 2) ∧
      (nClustersMinOf n maxSize : ℤ) = ⌈(n : ℚ) / (maxSize : ℚ)⌉ ∧
      (nClustersMaxOf n minSize : ℤ) = ⌊(n : ℚ) / (minSize : ℚ)⌋ := by
  have hceil := nClustersMinOf_eq_ceil n maxSize (by omega)
  have hfloor := nClustersMaxOf_eq_floor n minSize (by omega)
  simp only [CalculateOptimalClusters]
  rw [if_neg (Nat.not_lt.mpr hn)]
  rw [if_neg (by exact Nat.not_lt.mpr hfeas)]
  rcases Nat.lt_or_ge (nClustersMinOf n maxSize) (nClustersMaxOf n minSize) with h | h
  · rw [if_pos h]
    refine ⟨_, rfl, by omega, by omega, ?_, hceil, hfloor⟩
    rw [if_neg (by omega)]
  · have heq : nClustersMinOf n maxSize = nClustersMaxOf n minSize :=
      Nat.le_antisymm hfeas h
    rw [if_neg (by omega)]
    exact ⟨_, rfl, Nat.le_refl _, by omega, by rw [if_pos heq], hceil, hfloor⟩

/-- Witness for C4 at (n, minSize, maxSize) = (10, 3, 6): kMin = 2, kMax = 3. -/
theorem calculateOptimalClusters_feasible_witness :
    ∃ K, CalculateOptimalClusters 10 3 6 = Except.ok K ∧
      nClustersMinOf 10 6 ≤ K ∧ K ≤ nClustersMaxOf 10 3 ∧
      K = (if nClustersMinOf 10 6 = nClustersMaxOf 10 3
           then nClustersMinOf 10 6
           else (nClustersMinOf 10 6 + nClustersMaxOf 10 3) / 2) ∧
      (nClustersMinOf 10 6 : ℤ) = ⌈((10 : Nat) : ℚ) / ((6 : Nat) : ℚ)⌉ ∧
      (nClustersMaxOf 10 3 : ℤ) = ⌊((10 : Nat) : ℚ) / ((3 : Nat) : ℚ)⌋ :=
  calculateOptimalClusters_feasible 10 3 6 (by decide) (by decide) (by decide) (by decide)

/-- Claim C5: CalculateOptimalClusters errors exactly when n < minSize or
ceil(n/maxSize) > floor(n/minSize); in particular estimate(5,3,3) errors. -/
theorem calculateOptimalClusters_error_iff (n minSize maxSize : Nat)
    (hmin : 1 ≤ minSize) (hmm : minSize ≤ maxSize) :
    (isErrorResult (CalculateOptimalClusters n minSize maxSize) = true ↔
      n < minSize ∨ nClustersMaxOf n minSize < nClustersMinOf n maxSize) ∧
    isErrorResult (CalculateOptimalClusters 5 3 3) = true := by
  constructor
  · simp only [CalculateOptimalClusters]
    by_cases h1 : n < minSize
    · simp [h1, isErrorResult]
    · rw [if_neg h1]
      by_cases h2 : nClustersMaxOf n minSize < nClustersMinOf n maxSize
      · simp only [gt_iff_lt, if_pos h2]
        simp [isErrorResult, h2]
      · simp only [gt_iff_lt, if_neg h2]
        by_cases h3 : nClustersMinOf n maxSize < nClustersMaxOf n minSize
        · simp [h3, isErrorResult, h1, h2]
        · simp [h3, isErrorResult, h1, h2]
  · decide

/-- Witness for C5 at the claim's own instance (5, 3, 3). -/
theorem calculateOptimalClusters_error_iff_witness :
    ((isErrorResult (CalculateOptimalClusters 5 3 3) = true ↔
      5 < 3 ∨ nClustersMaxOf 5 3 < nClustersMinOf 5 3) ∧
     isErrorResult (CalculateOptimalClusters 5 3 3) = true) :=
  calculateOptimalClusters_error_iff 5 3 3 (by decide) (by decide)

/-- Claim C7: MergeClusters concatenates the member lists, adds the sizes and
forms the size-weighted mean centroid; a size-1 cluster merged with a size-2
cluster gets centroid (v1 + 2*v2)/3 componentwise. -/
theorem mergeClusters_spec (a b : Cluster) (i : Nat)
    (hd : a.Centroid.length = b.Centroid.length) (hi : i < a.Centroid.length) :
    (MergeClusters a b).Indices = a.Indices ++ b.Indices ∧
    (MergeClusters a b).Size = a.Size + b.Size ∧
    (MergeClusters a b).Centroid.getD i 0 =
      ((a.Size : ℚ) * a.Centroid.getD i 0 + (b.Size : ℚ) * b.Centroid.getD i 0) /
        ((a.Size : ℚ) + (b.Size : ℚ)) ∧
    (a.Size = 1 → b.Size = 2 →
      (MergeClusters a b).Centroid.getD i 0 =
        (a.Centroid.getD i 0 + 2 * b.Centroid.getD i 0) / 3) := by
  have hc : (MergeClusters a b).Centroid.getD i 0 =
      ((a.Size : ℚ) * a.Centroid.getD i 0 + (b.Size : ℚ) * b.Centroid.getD i 0) /
        ((a.Size : ℚ) + (b.Size : ℚ)) := by
    show (((List.range a.Centroid.length).map _).getD i 0) = _
    rw [getD_range_map, if_pos hi]
    push_cast
    ring_nf
  refine ⟨rfl, rfl, hc, ?_⟩
  intro h1 h2
  rw [hc, h1, h2]
  norm_num

/-- Witness for C7 at a = ({0}, 1, [2]), b = ({1}, 2, [5]), component 0. -/
theorem mergeClusters_spec_witness :
    (MergeClusters { Indices := [0], Size := 1, Centroid := [2] }
        { Indices := [1], Size := 2, Centroid := [5] }).Indices = [0] ++ [1] ∧
    (MergeClusters { Indices := [0], Size := 1, Centroid := [2] }
        { Indices := [1], Size := 2, Centroid := [5] }).Size = 1 + 2 ∧
    (MergeClusters { Indices := [0], Size := 1, Centroid := [2] }
        { Indices := [1], Size := 2, Centroid := [5] }).Centroid.getD 0 0 =
      (((1 : Nat) : ℚ) * ([(2 : ℚ)].getD 0 0) + ((2 : Nat) : ℚ) * ([(5 : ℚ)].getD 0 0)) /
        (((1 : Nat) : ℚ) + ((2 : Nat) : ℚ)) ∧
    ((1 : Nat) = 1 → (2 : Nat) = 2 →
      (MergeClusters { Indices := [0], Size := 1, Centroid := [2] }
          { Indices := [1], Size := 2, Centroid := [5] }).Centroid.getD 0 0 =
        ([(2 : ℚ)].getD 0 0 + 2 * ([(5 : ℚ)].getD 0 0)) / 3) :=
  mergeClusters_spec { Indices := [0], Size := 1, Centroid := [2] }
    { Indices := [1], Size := 2, Centroid := [5] } 0 (by decide) (by decide)

/-- Squared euclidean distance between two vectors, following the wording of
the spec (section 4.2); the difference is taken over the length of the first
vector exactly as the source's diff loop does. -/
def squaredEuclideanDistance (u v : List ℚ) : ℚ :=
  ((List.range u.length).map fun i =>
    (u.getD i 0 - v.getD i 0) * (u.getD i 0 - v.getD i 0)).sum

/-- Claim C8: WardDistance is (sizeA*sizeB)/(sizeA+sizeB) times the squared
euclidean distance of the centroids; it vanishes on (A, A) and is symmetric
for equal-dimensional centroids. -/
theorem wardDistance_spec (a b : Cluster) (hA : 1 ≤ a.Size) (hB : 1 ≤ b.Size)
    (hd : a.Centroid.length = b.Centroid.length) :
    WardDistance a b = ((a.Size : ℚ) * (b.Size : ℚ)) / ((a.Size : ℚ) + (b.Size : ℚ)) *
      squaredEuclideanDistance a.Centroid b.Centroid ∧
    WardDistance a a = 0 ∧
    WardDistance a b = WardDistance b a := by
  have hdot : ∀ (x y : Cluster),
      DotFloat32
        ((List.range x.Centroid.length).map fun i =>
          x.Centroid.getD i 0 - y.Centroid.getD i 0)
        ((List.range x.Centroid.length).map fun i =>
          x.Centroid.getD i 0 - y.Centroid.getD i 0) =
      squaredEuclideanDistance x.Centroid y.Centroid := by
    intro x y
    simp only [DotFloat32, squaredEuclideanDistance, List.length_map, List.length_range]
    refine congrArg List.sum (List.map_congr_left ?_)
    intro i hi
    rw [List.mem_range] at hi
    rw [getD_range_map, if_pos hi]
  have hform : ∀ (x y : Cluster),
      WardDistance x y = ((x.Size : ℚ) * (y.Size : ℚ)) / ((x.Size : ℚ) + (y.Size : ℚ)) *
        squaredEuclideanDistance x.Centroid y.Centroid := by
    intro x y
    simp only [WardDistance]
    rw [hdot x y]
    push_cast
    ring_nf
  refine ⟨hform a b, ?_, ?_⟩
  · rw [hform a a]
    have : squaredEuclideanDistance a.Centroid a.Centroid = 0 := by
      apply List.sum_eq_zero
      intro x hx
      rw [List.mem_map] at hx
      obtain ⟨i, _, hix⟩ := hx
      rw [← hix]
      ring
    rw [this, mul_zero]
  · rw [hform a b, hform b a]
    have : squaredEuclideanDistance a.Centroid b.Centroid =
        squaredEuclideanDistance b.Centroid a.Centroid := by
      simp only [squaredEuclideanDistance]
      rw [← hd]
      refine congrArg List.sum (List.map_congr_left ?_)
      intro i _
      ring
    rw [this]
    ring

/-- Witness for C8 at a = ({0}, 1, [2, 0]), b = ({1}, 2, [5, 1]). -/
theorem wardDistance_spec_witness :
    (WardDistance { Indices := [0], Size := 1, Centroid := [2, 0] }
        { Indices := [1], Size := 2, Centroid := [5, 1] } =
      (((1 : Nat) : ℚ) * ((2 : Nat) : ℚ)) / (((1 : Nat) : ℚ) + ((2 : Nat) : ℚ)) *
        squaredEuclideanDistance [(2 : ℚ), 0] [(5 : ℚ), 1] ∧
    WardDistance { Indices := [0], Size := 1, Centroid := [2, 0] }
        { Indices := [0], Size := 1, Centroid := [2, 0] } = 0 ∧
    WardDistance { Indices := [0], Size := 1, Centroid := [2, 0] }
        { Indices := [1], Size := 2, Centroid := [5, 1] } =
      WardDistance { Indices := [1], Size := 2, Centroid := [5, 1] }
        { Indices := [0], Size := 1, Centroid := [2, 0] }) :=
  wardDistance_spec { Indices := [0], Size := 1, Centroid := [2, 0] }
    { Indices := [1], Size := 2, Centroid := [5, 1] } (by decide) (by decide) (by decide)

/-! List access helper lemmas. -/

theorem getD_eq_getElem {α : Type} (l : List α) (p : Nat) (d : α) (h : p < l.length) :
    l.getD p d = l[p] := by
  simp only [List.getD_eq_getElem?_getD, List.getElem?_eq_getElem h, Option.getD_some]

theorem getD_mem_of_lt {α : Type} (l : List α) (p : Nat) (d : α) (h : p < l.length) :
    l.getD p d ∈ l := by
  rw [getD_eq_getElem l p d h]
  exact List.getElem_mem h

theorem getD_eraseIdx {α : Type} :
    ∀ (l : List α) (a : Nat), a < l.length → ∀ (p : Nat) (d : α),
      (l.eraseIdx a).getD p d = if p < a then l.getD p d else l.getD (p + 1) d
  | [], a, ha, p, d => by simp at ha
  | x :: xs, 0, _, p, d => by
    simp [List.eraseIdx]
  | x :: xs, a + 1, ha, 0, d => by
    simp [List.eraseIdx]
  | x :: xs, a + 1, ha, p + 1, d => by
    have ih := getD_eraseIdx xs a (by simpa using ha) p d
    show (xs.eraseIdx a).getD p d = _
    rw [ih]
    by_cases h : p < a
    · rw [if_pos h, if_pos (by omega)]
      rfl
    · rw [if_neg h, if_neg (by omega)]
      rfl

theorem getD_set {α : Type} :
    ∀ (l : List α) (a : Nat) (v : α) (p : Nat) (d : α),
      (l.set a v).getD p d = if p = a ∧ a < l.length then v else l.getD p d
  | [], a, v, p, d => by simp
  | x :: xs, 0, v, 0, d => by simp [List.set]
  | x :: xs, 0, v, p + 1, d => by simp [List.set]
  | x :: xs, a + 1, v, 0, d => by simp [List.set]
  | x :: xs, a + 1, v, p + 1, d => by
    have ih := getD_set xs a v p d
    show (xs.set a v).getD p d = _
    rw [ih]
    by_cases h : p = a ∧ a < xs.length
    · rw [if_pos h, if_pos (by simp only [List.length_cons]; omega)]
    · rw [if_neg h, if_neg (by simp only [List.length_cons]; omega)]
      rfl

theorem getD_append_both {α : Type} :
    ∀ (l1 l2 : List α) (p : Nat) (d : α),
      (l1 ++ l2).getD p d =
        if p < l1.length then l1.getD p d else l2.getD (p - l1.length) d
  | [], l2, p, d => by simp
  | x :: xs, l2, 0, d => by simp
  | x :: xs, l2, p + 1, d => by
    have ih := getD_append_both xs l2 p d
    show (xs ++ l2).getD p d = _
    rw [ih]
    by_cases h : p < xs.length
    · rw [if_pos h, if_pos (by simp only [List.length_cons]; omega)]
      rfl
    · rw [if_neg h, if_neg (by simp only [List.length_cons]; omega)]
      congr 1
      simp only [List.length_cons]
      omega

/-! The scan of FindClosestClusters: characterisation of the selected pair. -/

/-- The (row, column) index pairs FindClosestClusters inspects, in scan order:
rows ascending, and inside row i the columns 0..i-1 ascending. -/
def scanPairs (n : Nat) : List (Nat × Nat) :=
  ((List.range n).map fun i => (List.range i).map fun j => (i, j)).flatten

/-- Scan order of FindClosestClusters as a relation on pairs: the pair with
the smaller row index comes first, and inside a row the smaller column. -/
def scanLT (a b : Nat × Nat) : Prop := a.1 < b.1 ∨ (a.1 = b.1 ∧ a.2 < b.2)

theorem mem_scanPairs (n : Nat) (pq : Nat × Nat) :
    pq ∈ scanPairs n ↔ pq.2 < pq.1 ∧ pq.1 < n := by
  obtain ⟨p, q⟩ := pq
  simp only [scanPairs, List.mem_flatten, List.mem_map]
  constructor
  · rintro ⟨L, ⟨i, hi, rfl⟩, hmem⟩
    rw [List.mem_range] at hi
    rw [List.mem_map] at hmem
    obtain ⟨j, hj, hpq⟩ := hmem
    rw [List.mem_range] at hj
    cases hpq
    exact ⟨hj, hi⟩
  · rintro ⟨hq, hp⟩
    exact ⟨(List.range p).map fun j => (p, j),
      ⟨p, List.mem_range.mpr hp, rfl⟩,
      List.mem_map.mpr ⟨q, List.mem_range.mpr hq, rfl⟩⟩

theorem pairwise_scanLT_scanPairs (n : Nat) : (scanPairs n).Pairwise scanLT := by
  induction n with
  | zero => simp [scanPairs]
  | succ n ih =>
    have hsplit : scanPairs (n + 1) =
        scanPairs n ++ ((List.range n).map fun j => (n, j)) := by
      simp [scanPairs, List.range_succ]
    rw [hsplit, List.pairwise_append]
    refine ⟨ih, ?_, ?_⟩
    · exact List.Pairwise.map _ (fun a b hab => Or.inr ⟨rfl, hab⟩)
        (List.pairwise_lt_range n)
    · intro x hx y hy
      rw [mem_scanPairs] at hx
      rw [List.mem_map] at hy
      obtain ⟨j, _, rfl⟩ := hy
      exact Or.inl hx.2

/-- One comparison step of the scan, abstracted over the entry function. -/
def minPairStepE (e : Nat × Nat → ℚ) (st : ℚ × Int × Int) (pq : Nat × Nat) : ℚ × Int × Int :=
  if e pq < st.1 then (e pq, ((pq.1 : Int), (pq.2 : Int))) else st

/-- Matrix entry read at an index pair. -/
def entryOf (m : List (List ℚ)) (pq : Nat × Nat) : ℚ := entryD m pq.1 pq.2

theorem findClosest_eq_foldl (m : List (List ℚ)) :
    FindClosestClusters m =
      ((scanPairs m.length).foldl (minPairStepE (entryOf m))
        (maxFloat32, ((-1 : Int), (-1 : Int)))).2 := by
  have hstep : ∀ (st : ℚ × Int × Int) (i : Nat),
      (List.range i).foldl
        (fun st j =>
          if entryD m i j < st.1 then (entryD m i j, ((i : Int), (j : Int))) else st) st =
      ((List.range i).map fun j => (i, j)).foldl (minPairStepE (entryOf m)) st := by
    intro st i
    rw [List.foldl_map]
    rfl
  have h1 : ∀ (l : List Nat) (init : ℚ × Int × Int),
      l.foldl
        (fun st i => (List.range i).foldl
          (fun st j =>
            if entryD m i j < st.1 then (entryD m i j, ((i : Int), (j : Int))) else st) st)
        init =
      l.foldl (fun st i => ((List.range i).map fun j => (i, j)).foldl
        (minPairStepE (entryOf m)) st) init := by
    intro l
    induction l with
    | nil => intro init; rfl
    | cons x xs ih =>
      intro init
      simp only [List.foldl_cons]
      rw [hstep, ih]
  simp only [FindClosestClusters, scanPairs]
  rw [List.foldl_flatten, List.foldl_map, h1]

/-- The fold of the scan keeps the first pair attaining the minimum entry:
either nothing improved on the initial state, or the result is the entry and
indices of the pair at some position k, strictly better than everything
before position k and at least as good as everything from k on. -/
theorem foldl_minPairStepE_spec (e : Nat × Nat → ℚ) :
    ∀ (L : List (Nat × Nat)) (s0 : ℚ × Int × Int),
      (L.foldl (minPairStepE e) s0 = s0 ∧ ∀ x ∈ L, s0.1 ≤ e x)
      ∨ (∃ k, k < L.length ∧
          L.foldl (minPairStepE e) s0 =
            (e (L.getD k (0, 0)),
              (((L.getD k (0, 0)).1 : Int), ((L.getD k (0, 0)).2 : Int))) ∧
          e (L.getD k (0, 0)) < s0.1 ∧
          (∀ l, l < k → e (L.getD k (0, 0)) < e (L.getD l (0, 0))) ∧
          (∀ l, k ≤ l → l < L.length → e (L.getD k (0, 0)) ≤ e (L.getD l (0, 0)))) := by
  intro L
  induction L with
  | nil =>
    intro s0
    left
    exact ⟨rfl, by simp⟩
  | cons x xs ih =>
    intro s0
    by_cases hx : e x < s0.1
    · have hfold : (x :: xs).foldl (minPairStepE e) s0 =
          xs.foldl (minPairStepE e) (e x, ((x.1 : Int), (x.2 : Int))) := by
        simp only [List.foldl_cons, minPairStepE]
        rw [if_pos hx]
      rcases ih (e x, ((x.1 : Int), (x.2 : Int))) with ⟨heq, hall⟩ | ⟨k, hk, heq, hlt, hbef, haft⟩
      · right
        refine ⟨0, by simp, ?_, hx, ?_, ?_⟩
        · rw [hfold, heq]
          rfl
        · intro l hl
          exact absurd hl (Nat.not_lt_zero l)
        · intro l _ hllen
          match l with
          | 0 => exact le_refl _
          | l' + 1 =>
            exact hall (xs.getD l' (0, 0))
              (getD_mem_of_lt xs l' (0, 0) (by simpa using hllen))
      · right
        refine ⟨k + 1, by simpa using hk, ?_, lt_trans hlt hx, ?_, ?_⟩
        · rw [hfold, heq]
          rfl
        · intro l hl
          match l with
          | 0 => exact hlt
          | l' + 1 => exact hbef l' (by omega)
        · intro l hl0 hllen
          match l with
          | 0 => omega
          | l' + 1 => exact haft l' (by omega) (by simpa using hllen)
    · have hfold : (x :: xs).foldl (minPairStepE e) s0 = xs.foldl (minPairStepE e) s0 := by
        simp only [List.foldl_cons, minPairStepE]
        rw [if_neg hx]
      rcases ih s0 with ⟨heq, hall⟩ | ⟨k, hk, heq, hlt, hbef, haft⟩
      · left
        refine ⟨by rw [hfold, heq], ?_⟩
        intro y hy
        rcases List.mem_cons.mp hy with rfl | hy'
        · exact le_of_not_lt hx
        · exact hall y hy'
      · right
        refine ⟨k + 1, by simpa using hk, by rw [hfold, heq]; rfl, hlt, ?_, ?_⟩
        · intro l hl
          match l with
          | 0 => exact lt_of_lt_of_le hlt (le_of_not_lt hx)
          | l' + 1 => exact hbef l' (by omega)
        · intro l hl0 hllen
          match l with
          | 0 => omega
          | l' + 1 => exact haft l' (by omega) (by simpa using hllen)

/-- Characterisation of FindClosestClusters when it reports a pair: the pair
is inside the lower triangle, its entry is strictly below the sentinel, it is
minimal among all lower-triangle entries, and ties go to the pair that comes
first in the scan order (larger index ascending, then smaller index). -/
theorem findClosestClusters_spec (m : List (List ℚ)) (i j : Int)
    (h : FindClosestClusters m = (i, j)) (hne : i ≠ -1) :
    ∃ p q : Nat, i = (p : Int) ∧ j = (q : Int) ∧ q < p ∧ p < m.length ∧
      entryD m p q < maxFloat32 ∧
      (∀ p' q' : Nat, q' < p' → p' < m.length →
        entryD m p q ≤ entryD m p' q' ∧
        (entryD m p' q' = entryD m p q → scanLT (p, q) (p', q') ∨ (p, q) = (p', q'))) := by
  rw [findClosest_eq_foldl] at h
  rcases foldl_minPairStepE_spec (entryOf m) (scanPairs m.length)
      (maxFloat32, ((-1 : Int), (-1 : Int))) with ⟨heq, _⟩ | ⟨k, hk, heq, hlt, hbef, haft⟩
  · rw [heq] at h
    have : i = -1 := by
      have := congrArg Prod.fst h
      simpa using this.symm
    exact absurd this hne
  · rw [heq] at h
    have hpm : (scanPairs m.length).getD k (0, 0) ∈ scanPairs m.length :=
      getD_mem_of_lt _ k (0, 0) hk
    rw [mem_scanPairs] at hpm
    obtain ⟨hq_lt_p, hp_lt_n⟩ := hpm
    have hi : i = (((scanPairs m.length).getD k (0, 0)).1 : Int) := by
      have := congrArg Prod.fst h
      simpa using this.symm
    have hj : j = (((scanPairs m.length).getD k (0, 0)).2 : Int) := by
      have := congrArg Prod.snd h
      simpa using this.symm
    refine ⟨_, _, hi, hj, hq_lt_p, hp_lt_n, hlt, ?_⟩
    intro p' q' hq' hp'
    have hmem : (p', q') ∈ scanPairs m.length := (mem_scanPairs _ _).mpr ⟨hq', hp'⟩
    obtain ⟨l, hllen, hl⟩ := List.mem_iff_getElem.mp hmem
    have hlD : (scanPairs m.length).getD l (0, 0) = (p', q') := by
      rw [getD_eq_getElem _ l (0, 0) hllen]
      exact hl
    rcases Nat.lt_trichotomy l k with hlk | hlk | hlk
    · have := hbef l hlk
      rw [hlD] at this
      exact ⟨le_of_lt this, fun habs => absurd habs (ne_of_gt this)⟩
    · subst hlk
      rw [hlD]
      exact ⟨le_refl _, fun _ => Or.inr rfl⟩
    · have hle := haft l (le_of_lt hlk) hllen
      rw [hlD] at hle
      refine ⟨hle, ?_⟩
      intro _
      left
      have hp := pairwise_scanLT_scanPairs m.length
      rw [List.pairwise_iff_getElem] at hp
      have := hp k l hk hllen hlk
      rw [← getD_eq_getElem _ k (0, 0) hk, ← getD_eq_getElem _ l (0, 0) hllen, hlD] at this
      exact this

/-- Claim C6 counterexample. In this symmetric 4x4 matrix the off-diagonal
minimum 1 is attained by the pairs {0,3} and {1,2}. Scanning the upper
triangle in row-major order meets (0,3) first, so the claim predicts the
result (3, 0); the source's loops scan j < i with i ascending, meet the entry
(2,1) first and keep it under the strict comparison. -/
theorem findClosestClusters_tiebreak_counterexample :
    FindClosestClusters [[0, 2, 2, 1], [2, 0, 1, 2], [2, 1, 0, 2], [1, 2, 2, 0]] = (2, 1) ∧
    ((2 : Int), (1 : Int)) ≠ ((3 : Int), (0 : Int)) := by
  constructor
  · decide
  · decide

/-- Claim C6 amended: the pair FindClosestClusters returns minimises the
entry over the scanned lower triangle among entries strictly below the
math.MaxFloat32 sentinel, and a tie is broken to the pair met first in the
source's scan order — ascending larger index i, then ascending smaller index
j < i (column-major on the upper triangle), not upper-triangle row-major. -/
theorem findClosestClusters_minimal (m : List (List ℚ)) (i j : Int) (p' q' : Nat)
    (h : FindClosestClusters m = (i, j)) (hne : i ≠ -1)
    (hq' : q' < p') (hp' : p' < m.length) :
    0 ≤ j ∧ j < i ∧ i < (m.length : Int) ∧
    entryD m i.toNat j.toNat < maxFloat32 ∧
    entryD m i.toNat j.toNat ≤ entryD m p' q' ∧
    (entryD m p' q' = entryD m i.toNat j.toNat →
      i.toNat < p' ∨ (i.toNat = p' ∧ j.toNat ≤ q')) := by
  obtain ⟨p, q, hi, hj, hqp, hpn, hlt, hmin⟩ := findClosestClusters_spec m i j h hne
  subst hi
  subst hj
  rw [Int.toNat_natCast, Int.toNat_natCast]
  refine ⟨Int.natCast_nonneg q, by exact_mod_cast hqp, by exact_mod_cast hpn, hlt,
    (hmin p' q' hq' hp').1, ?_⟩
  intro he
  rcases (hmin p' q' hq' hp').2 he with hs | hs
  · rcases hs with h1 | ⟨h1, h2⟩
    · exact Or.inl h1
    · exact Or.inr ⟨h1, le_of_lt h2⟩
  · cases hs
    exact Or.inr ⟨rfl, le_refl _⟩

/-- Witness for the amended C6 at the 2x2 matrix [[0,5],[5,0]], whose scan
selects the pair (1, 0). -/
theorem findClosestClusters_minimal_witness :
    0 ≤ (0 : Int) ∧ (0 : Int) < (1 : Int) ∧
    (1 : Int) < ((([[0, 5], [5, 0]] : List (List ℚ)).length : Nat) : Int) ∧
    entryD [[0, 5], [5, 0]] (1 : Int).toNat (0 : Int).toNat < maxFloat32 ∧
    entryD [[0, 5], [5, 0]] (1 : Int).toNat (0 : Int).toNat ≤ entryD [[0, 5], [5, 0]] 1 0 ∧
    (entryD [[0, 5], [5, 0]] 1 0 = entryD [[0, 5], [5, 0]] (1 : Int).toNat (0 : Int).toNat →
      (1 : Int).toNat < 1 ∨ ((1 : Int).toNat = 1 ∧ (0 : Int).toNat ≤ 0)) :=
  findClosestClusters_minimal [[0, 5], [5, 0]] 1 0 1 0 (by decide) (by decide)
    (by decide) (by decide)

/-! Matrix shape and symmetry invariants (claim C9). -/

/-- The distance-matrix invariant: square with the given side, symmetric and
zero on the diagonal. -/
def MatrixInvariant (m : List (List ℚ)) (k : Nat) : Prop :=
  m.length = k ∧ (∀ r ∈ m, r.length = k) ∧
  (∀ p, p < k → ∀ q, q < k → entryD m p q = entryD m q p) ∧
  (∀ p, p < k → entryD m p p = 0)

theorem matrixInvariant_initial (clusters : List Cluster) :
    MatrixInvariant (ComputeInitialDistanceMatrix clusters) clusters.length := by
  have hentry : ∀ p q, p < clusters.length → q < clusters.length →
      entryD (ComputeInitialDistanceMatrix clusters) p q =
        (if p = q then 0
         else if q < p then WardDistance (getCluster clusters p) (getCluster clusters q)
         else WardDistance (getCluster clusters q) (getCluster clusters p)) := by
    intro p q hp hq
    simp only [ComputeInitialDistanceMatrix, entryD]
    rw [getD_range_map, if_pos hp, getD_range_map, if_pos hq]
  refine ⟨by simp [ComputeInitialDistanceMatrix], ?_, ?_, ?_⟩
  · intro r hr
    simp only [ComputeInitialDistanceMatrix] at hr
    rw [List.mem_map] at hr
    obtain ⟨x, _, rfl⟩ := hr
    simp
  · intro p hp q hq
    rw [hentry p q hp hq, hentry q p hq hp]
    by_cases hpq : p = q
    · subst hpq
      simp
    · rw [if_neg hpq, if_neg (Ne.symm hpq)]
      rcases Nat.lt_or_ge q p with h | h
      · rw [if_pos h, if_neg (by omega)]
      · have hh : p < q := by omega
        rw [if_neg (by omega), if_pos hh]
  · intro p hp
    rw [hentry p p hp hp, if_pos rfl]

theorem length_markExcluded (m : List (List ℚ)) (i j : Nat) :
    (markExcluded m i j).length = m.length := by
  simp only [markExcluded, List.length_set]

theorem entryD_markExcluded (m : List (List ℚ)) (k i j : Nat)
    (hlen : m.length = k) (hrows : ∀ r ∈ m, r.length = k)
    (hji : j < i) (hik : i < k) (p q : Nat) :
    entryD (markExcluded m i j) p q =
      if p = i ∧ q = j then maxFloat32
      else if p = j ∧ q = i then maxFloat32
      else entryD m p q := by
  have hjk : j < k := lt_trans hji hik
  have hrowlen : ∀ x, x < k → (m.getD x []).length = k := by
    intro x hx
    exact hrows _ (getD_mem_of_lt m x [] (by rw [hlen]; exact hx))
  have hA : (m.set i ((m.getD i []).set j maxFloat32)).getD j [] = m.getD j [] := by
    rw [getD_set, if_neg (by omega)]
  simp only [markExcluded, entryD]
  rw [hA, getD_set, List.length_set, hlen]
  by_cases hpj : p = j
  · rw [if_pos ⟨hpj, hjk⟩, getD_set, hrowlen j hjk]
    by_cases hqi : q = i
    · rw [if_pos ⟨hqi, hik⟩, if_neg (by omega), if_pos ⟨hpj, hqi⟩]
    · rw [if_neg (by omega), if_neg (by omega), if_neg (by omega), hpj]
  · rw [if_neg (by omega), getD_set, hlen]
    by_cases hpi : p = i
    · rw [if_pos ⟨hpi, hik⟩, getD_set, hrowlen i hik]
      by_cases hqj : q = j
      · rw [if_pos ⟨hqj, hjk⟩, if_pos ⟨hpi, hqj⟩]
      · rw [if_neg (by omega), if_neg (by omega), if_neg (by omega), hpi]
    · rw [if_neg (by omega), if_neg (by omega), if_neg (by omega)]

theorem matrixInvariant_markExcluded (m : List (List ℚ)) (k i j : Nat)
    (hinv : MatrixInvariant m k) (hji : j < i) (hik : i < k) :
    MatrixInvariant (markExcluded m i j) k := by
  obtain ⟨hlen, hrows, hsym, hdiag⟩ := hinv
  have hjk : j < k := lt_trans hji hik
  have hner : i ≠ j := by omega
  have hrowlen : ∀ p, p < k → (m.getD p []).length = k := by
    intro p hp
    exact hrows _ (getD_mem_of_lt m p [] (by rw [hlen]; exact hp))
  have hA : (m.set i ((m.getD i []).set j maxFloat32)).getD j [] = m.getD j [] := by
    rw [getD_set, if_neg (by omega)]
  have hentry : ∀ p q : Nat, entryD (markExcluded m i j) p q =
      if p = i ∧ q = j then maxFloat32
      else if p = j ∧ q = i then maxFloat32
      else entryD m p q := entryD_markExcluded m k i j hlen hrows hji hik
  refine ⟨?_, ?_, ?_, ?_⟩
  · simp only [markExcluded, List.length_set]
    exact hlen
  · intro r hr
    simp only [markExcluded] at hr
    rcases List.mem_or_eq_of_mem_set hr with hr1 | rfl
    · rcases List.mem_or_eq_of_mem_set hr1 with hr2 | rfl
      · exact hrows r hr2
      · rw [List.length_set]
        exact hrowlen i hik
    · rw [List.length_set, hA]
      exact hrowlen j hjk
  · intro p hp q hq
    rw [hentry p q, hentry q p]
    by_cases h1 : p = i ∧ q = j
    · rw [if_pos h1, if_neg (by omega), if_pos (by omega)]
    · by_cases h2 : p = j ∧ q = i
      · rw [if_neg h1, if_pos h2, if_pos (by omega)]
      · rw [if_neg h1, if_neg h2, if_neg (by omega), if_neg (by omega)]
        exact hsym p hp q hq
  · intro p hp
    rw [hentry p p]
    rw [if_neg (by omega), if_neg (by omega)]
    exact hdiag p hp

theorem getD_double_eraseIdx {α : Type} (l : List α) (a b : Nat) (d : α)
    (hab : a < b) (hb : b < l.length) (p : Nat) :
    ((l.eraseIdx b).eraseIdx a).getD p d =
      l.getD (if p < a then p else if p + 1 < b then p + 1 else p + 2) d := by
  have hlen : (l.eraseIdx b).length = l.length - 1 := by
    rw [List.length_eraseIdx, if_pos hb]
  have ha : a < (l.eraseIdx b).length := by omega
  rw [getD_eraseIdx _ a ha p d]
  by_cases h1 : p < a
  · rw [if_pos h1, if_pos h1, getD_eraseIdx _ b hb p d, if_pos (by omega)]
  · rw [if_neg h1, if_neg h1, getD_eraseIdx _ b hb (p + 1) d]
    by_cases h2 : p + 1 < b
    · rw [if_pos h2, if_pos h2]
    · rw [if_neg h2, if_neg h2]

theorem getD_map_general {α β : Type} (f : α → β) (l : List α) (x : Nat)
    (da : α) (db : β) (hf : f da = db) :
    (l.map f).getD x db = f (l.getD x da) := by
  rcases Nat.lt_or_ge x l.length with h | h
  · rw [getD_eq_getElem (l.map f) x db (by simpa using h), List.getElem_map,
      getD_eq_getElem l x da h]
  · rw [List.getD_eq_getElem?_getD, List.getElem?_eq_none (by simpa using h),
      List.getD_eq_getElem?_getD, List.getElem?_eq_none h]
    simp [hf]

/-- The index an entry of the matrix occupies before rows/columns a < b are
removed, as a function of its index afterwards. -/
def shiftIdx (a b p : Nat) : Nat :=
  if p < a then p else if p + 1 < b then p + 1 else p + 2

theorem removeRowsAndColumns_eq (m : List (List ℚ)) (i j : Nat) (hji : j < i) :
    RemoveRowsAndColumns m i j =
      ((m.map fun row => (row.eraseIdx i).eraseIdx j).eraseIdx i).eraseIdx j := by
  simp only [RemoveRowsAndColumns]
  rw [if_pos hji]

theorem length_removeRowsAndColumns (m : List (List ℚ)) (i j : Nat)
    (hji : j < i) (hi : i < m.length) :
    (RemoveRowsAndColumns m i j).length = m.length - 2 := by
  rw [removeRowsAndColumns_eq m i j hji]
  rw [List.length_eraseIdx, List.length_eraseIdx, List.length_map]
  rw [if_pos hi, if_pos (by omega)]
  omega

theorem rows_removeRowsAndColumns (m : List (List ℚ)) (i j : Nat) (hji : j < i)
    (r : List ℚ) (hr : r ∈ RemoveRowsAndColumns m i j) :
    ∃ row ∈ m, r = (row.eraseIdx i).eraseIdx j := by
  rw [removeRowsAndColumns_eq m i j hji] at hr
  have hr1 := List.mem_of_mem_eraseIdx (List.mem_of_mem_eraseIdx hr)
  rw [List.mem_map] at hr1
  obtain ⟨row, hrow, hfr⟩ := hr1
  exact ⟨row, hrow, hfr.symm⟩

theorem entryD_removeRowsAndColumns (m : List (List ℚ)) (k i j : Nat)
    (hlen : m.length = k) (hrows : ∀ r ∈ m, r.length = k)
    (hji : j < i) (hik : i < k) (p q : Nat) :
    entryD (RemoveRowsAndColumns m i j) p q =
      entryD m (shiftIdx j i p) (shiftIdx j i q) := by
  rw [removeRowsAndColumns_eq m i j hji]
  simp only [entryD, shiftIdx]
  rw [getD_double_eraseIdx _ j i [] hji (by simpa [hlen] using hik) p]
  rw [getD_map_general (fun row => (row.eraseIdx i).eraseIdx j) m _ [] [] rfl]
  set sp := if p < j then p else if p + 1 < i then p + 1 else p + 2 with hsp_def
  by_cases hsp : sp < k
  · have hrl : (m.getD sp []).length = k :=
      hrows _ (getD_mem_of_lt m sp [] (by rw [hlen]; exact hsp))
    rw [getD_double_eraseIdx _ j i 0 hji (by rw [hrl]; exact hik) q]
  · have hnil : m.getD sp [] = [] := by
      rw [List.getD_eq_getElem?_getD, List.getElem?_eq_none (by rw [hlen]; omega)]
      rfl
    rw [hnil]
    simp

theorem matrixInvariant_update (m : List (List ℚ)) (clusters : List Cluster)
    (newCluster : Cluster) (i j : Nat)
    (hinv : MatrixInvariant m (clusters.length + 1))
    (hji : j < i) (hik : i < clusters.length + 1) (hc : 1 ≤ clusters.length) :
    MatrixInvariant (UpdateDistanceMatrix m clusters newCluster i j) clusters.length := by
  obtain ⟨hlen, hrows, hsym, hdiag⟩ := hinv
  have hshift_lt : ∀ p, p < clusters.length - 1 →
      shiftIdx j i p < clusters.length + 1 := by
    intro p hp
    simp only [shiftIdx]
    by_cases h1 : p < j
    · rw [if_pos h1]
      omega
    · rw [if_neg h1]
      by_cases h2 : p + 1 < i
      · rw [if_pos h2]
        omega
      · rw [if_neg h2]
        omega
  have hm1len : (RemoveRowsAndColumns m i j).length = clusters.length - 1 := by
    rw [length_removeRowsAndColumns m i j hji (by omega), hlen]
    omega
  have hm1rowlen : ∀ x, ((RemoveRowsAndColumns m i j).getD x []).length =
      (if x < clusters.length - 1 then clusters.length - 1 else 0) := by
    intro x
    by_cases hx : x < clusters.length - 1
    · rw [if_pos hx]
      obtain ⟨row, hrow, hreq⟩ := rows_removeRowsAndColumns m i j hji _
        (getD_mem_of_lt _ x [] (by rw [hm1len]; exact hx))
      rw [hreq]
      have hrl : row.length = clusters.length + 1 := hrows row hrow
      rw [List.length_eraseIdx, List.length_eraseIdx, hrl, if_pos hik,
        if_pos (by omega)]
      omega
    · rw [if_neg hx]
      rw [List.getD_eq_getElem?_getD, List.getElem?_eq_none (by rw [hm1len]; omega)]
      rfl
  have hentry1 : ∀ p q, entryD (RemoveRowsAndColumns m i j) p q =
      entryD m (shiftIdx j i p) (shiftIdx j i q) :=
    entryD_removeRowsAndColumns m (clusters.length + 1) i j hlen hrows hji hik
  set n := clusters.length with hn
  set newRow := (List.range n).map fun x =>
    if x = n - 1 then 0 else WardDistance (getCluster clusters x) newCluster with hnewRow
  have hnewRowD : ∀ x, newRow.getD x 0 =
      if x < n then (if x = n - 1 then 0 else WardDistance (getCluster clusters x) newCluster)
      else 0 := by
    intro x
    rw [hnewRow, getD_range_map]
  have hnewRowLen : newRow.length = n := by
    rw [hnewRow, List.length_map, List.length_range]
  have hupdate_eq : UpdateDistanceMatrix m clusters newCluster i j =
      ((List.range (RemoveRowsAndColumns m i j).length).map fun x =>
        if x < n - 1 then (RemoveRowsAndColumns m i j).getD x [] ++ [newRow.getD x 0]
        else (RemoveRowsAndColumns m i j).getD x []) ++ [newRow] := by
    simp only [UpdateDistanceMatrix]
  have hentry : ∀ p q, p < n → q < n →
      entryD (UpdateDistanceMatrix m clusters newCluster i j) p q =
        (if p < n - 1 ∧ q < n - 1 then entryD m (shiftIdx j i p) (shiftIdx j i q)
         else if p < n - 1 ∧ q = n - 1 then
           WardDistance (getCluster clusters p) newCluster
         else if p = n - 1 ∧ q < n - 1 then
           WardDistance (getCluster clusters q) newCluster
         else 0) := by
    intro p q hp hq
    rw [hupdate_eq]
    simp only [entryD]
    rw [getD_append_both]
    rw [List.length_map, List.length_range, hm1len]
    by_cases hpn : p < n - 1
    · rw [if_pos hpn, getD_range_map, if_pos hpn, if_pos hpn]
      rw [getD_append_both, hm1rowlen p, if_pos hpn]
      by_cases hqn : q < n - 1
      · rw [if_pos hqn, if_pos ⟨hpn, hqn⟩]
        exact hentry1 p q
      · rw [if_neg hqn]
        have hq1 : q = n - 1 := by omega
        have : q - (n - 1) = 0 := by omega
        rw [this]
        rw [if_neg (by omega), if_pos ⟨hpn, hq1⟩]
        show newRow.getD p 0 = _
        rw [hnewRowD p, if_pos (by omega), if_neg (by omega)]
    · rw [if_neg hpn]
      have hp1 : p = n - 1 := by omega
      have : p - (n - 1) = 0 := by omega
      rw [this]
      show newRow.getD q 0 = _
      rw [hnewRowD q, if_pos hq]
      by_cases hqn : q < n - 1
      · rw [if_neg (by omega), if_neg (by omega), if_neg (by omega),
          if_pos ⟨hp1, hqn⟩]
      · rw [if_pos (by omega), if_neg (by omega), if_neg (by omega),
          if_neg (by omega)]
  refine ⟨?_, ?_, ?_, ?_⟩
  · rw [hupdate_eq]
    rw [List.length_append, List.length_map, List.length_range, hm1len]
    simp only [List.length_cons, List.length_nil]
    omega
  · intro r hr
    rw [hupdate_eq] at hr
    rw [List.mem_append] at hr
    rcases hr with hr | hr
    · rw [List.mem_map] at hr
      obtain ⟨x, hx, rfl⟩ := hr
      rw [List.mem_range, hm1len] at hx
      rw [if_pos hx]
      rw [List.length_append, hm1rowlen x, if_pos hx]
      simp only [List.length_cons, List.length_nil]
      omega
    · rw [List.mem_singleton] at hr
      subst hr
      exact hnewRowLen
  · intro p hp q hq
    rw [hentry p q hp hq, hentry q p hq hp]
    by_cases h1 : p < n - 1 ∧ q < n - 1
    · rw [if_pos h1, if_pos (by omega)]
      exact hsym _ (hshift_lt p h1.1) _ (hshift_lt q h1.2)
    · by_cases h2 : p < n - 1 ∧ q = n - 1
      · rw [if_neg h1, if_pos h2, if_neg (by omega), if_neg (by omega),
          if_pos (by omega)]
      · by_cases h3 : p = n - 1 ∧ q < n - 1
        · rw [if_neg h1, if_neg h2, if_pos h3, if_neg (by omega),
            if_pos (by omega)]
        · rw [if_neg h1, if_neg h2, if_neg h3, if_neg (by omega),
            if_neg (by omega), if_neg (by omega)]
  · intro p hp
    rw [hentry p p hp hp]
    by_cases h1 : p < n - 1
    · rw [if_pos ⟨h1, h1⟩]
      exact hdiag _ (hshift_lt p h1)
    · rw [if_neg (by omega), if_neg (by omega), if_neg (by omega)]

/-- Claim C9: the distance matrix is square with side equal to the live
cluster count, symmetric and zero on the diagonal, after the initial
computation, after every merge update (old side = new cluster count + 1,
removed indices j < i within the old side), and after every exclusion step,
which writes the sentinel to the entry and its symmetric counterpart. -/
theorem distanceMatrix_invariants :
    (∀ clusters : List Cluster,
      MatrixInvariant (ComputeInitialDistanceMatrix clusters) clusters.length) ∧
    (∀ (m : List (List ℚ)) (clusters : List Cluster) (newCluster : Cluster) (i j : Nat),
      MatrixInvariant m (clusters.length + 1) → j < i → i < clusters.length + 1 →
      1 ≤ clusters.length →
      MatrixInvariant (UpdateDistanceMatrix m clusters newCluster i j) clusters.length) ∧
    (∀ (m : List (List ℚ)) (k i j : Nat),
      MatrixInvariant m k → j < i → i < k →
      MatrixInvariant (markExcluded m i j) k) :=
  ⟨matrixInvariant_initial,
   fun m clusters newCluster i j hinv hji hik hc =>
     matrixInvariant_update m clusters newCluster i j hinv hji hik hc,
   fun m k i j hinv hji hik => matrixInvariant_markExcluded m k i j hinv hji hik⟩

/-! Invariants of the agglomeration loop on the cluster list. -/

/-- Every live cluster's Size field matches its member count and stays within
maxSize (maintained by the merge guard). -/
def ClustersInvariant (maxSize : Nat) (clusters : List Cluster) : Prop :=
  ∀ c ∈ clusters, c.Size = c.Indices.length ∧ c.Size ≤ maxSize

/-- Multiset of member indices over all live clusters. -/
def itemsOf (clusters : List Cluster) : Multiset Nat :=
  ((clusters : Multiset Cluster).map fun c => (c.Indices : Multiset Nat)).sum

theorem itemsOf_nil : itemsOf [] = 0 := rfl

theorem itemsOf_cons (c : Cluster) (l : List Cluster) :
    itemsOf (c :: l) = (c.Indices : Multiset Nat) + itemsOf l := by
  simp only [itemsOf]
  rw [show ((c :: l : List Cluster) : Multiset Cluster) = c ::ₘ (l : Multiset Cluster) from rfl]
  rw [Multiset.map_cons, Multiset.sum_cons]

theorem itemsOf_append (l1 l2 : List Cluster) :
    itemsOf (l1 ++ l2) = itemsOf l1 + itemsOf l2 := by
  simp only [itemsOf]
  rw [show ((l1 ++ l2 : List Cluster) : Multiset Cluster) =
    (l1 : Multiset Cluster) + (l2 : Multiset Cluster) from rfl]
  rw [Multiset.map_add, Multiset.sum_add]

theorem itemsOf_congr_perm (l l' : List Cluster) (h : l.Perm l') :
    itemsOf l = itemsOf l' := by
  simp only [itemsOf]
  rw [Multiset.coe_eq_coe.mpr h]

theorem perm_getD_cons_eraseIdx {α : Type} :
    ∀ (l : List α) (p : Nat), p < l.length → ∀ (d : α),
      l.Perm (l.getD p d :: l.eraseIdx p)
  | [], p, hp, d => by simp at hp
  | x :: xs, 0, _, d => by
    simp [List.eraseIdx]
  | x :: xs, p + 1, hp, d => by
    have ih := perm_getD_cons_eraseIdx xs p (by simpa using hp) d
    show (x :: xs).Perm (xs.getD p d :: x :: xs.eraseIdx p)
    have hsw : (x :: xs.getD p d :: xs.eraseIdx p).Perm
        (xs.getD p d :: x :: xs.eraseIdx p) :=
      List.Perm.swap (xs.getD p d) x (xs.eraseIdx p)
    exact (List.Perm.cons x ih).trans hsw

theorem removeClusters_eq (clusters : List Cluster) (i j : Nat) (hji : j < i) :
    RemoveClusters clusters i j = (clusters.eraseIdx i).eraseIdx j := by
  simp only [RemoveClusters]
  rw [if_pos hji]

theorem itemsOf_removeMerge (clusters : List Cluster) (i j : Nat)
    (hji : j < i) (hi : i < clusters.length) :
    itemsOf (RemoveClusters clusters i j ++
      [MergeClusters (getCluster clusters i) (getCluster clusters j)]) =
    itemsOf clusters := by
  have hjlen : j < (clusters.eraseIdx i).length := by
    rw [List.length_eraseIdx, if_pos hi]
    omega
  have h1 : clusters.Perm (getCluster clusters i :: clusters.eraseIdx i) :=
    perm_getD_cons_eraseIdx clusters i hi emptyCluster
  have h2 : (clusters.eraseIdx i).Perm
      ((clusters.eraseIdx i).getD j emptyCluster :: (clusters.eraseIdx i).eraseIdx j) :=
    perm_getD_cons_eraseIdx _ j hjlen emptyCluster
  have hgetj : (clusters.eraseIdx i).getD j emptyCluster = getCluster clusters j := by
    rw [getD_eraseIdx clusters i hi j emptyCluster, if_pos hji]
    rfl
  rw [removeClusters_eq clusters i j hji, itemsOf_append]
  rw [itemsOf_congr_perm clusters _ (h1.trans (List.Perm.cons _ h2))]
  rw [hgetj, itemsOf_cons, itemsOf_cons, itemsOf_cons, itemsOf_nil]
  rw [show (MergeClusters (getCluster clusters i) (getCluster clusters j)).Indices =
    (getCluster clusters i).Indices ++ (getCluster clusters j).Indices from rfl]
  rw [show (((getCluster clusters i).Indices ++ (getCluster clusters j).Indices :
      List Nat) : Multiset Nat) =
    ((getCluster clusters i).Indices : Multiset Nat) +
      ((getCluster clusters j).Indices : Multiset Nat) from rfl]
  abel

theorem getCluster_default (clusters : List Cluster) (i : Nat)
    (h : clusters.length ≤ i) : getCluster clusters i = emptyCluster := by
  simp only [getCluster]
  rw [List.getD_eq_getElem?_getD, List.getElem?_eq_none h]
  rfl

theorem getCluster_invariant (maxSize : Nat) (clusters : List Cluster) (i : Nat)
    (hinv : ClustersInvariant maxSize clusters) :
    (getCluster clusters i).Size = (getCluster clusters i).Indices.length ∧
    (getCluster clusters i).Size ≤ maxSize := by
  by_cases hi : i < clusters.length
  · exact hinv _ (getD_mem_of_lt clusters i emptyCluster hi)
  · rw [getCluster_default clusters i (by omega)]
    exact ⟨rfl, Nat.zero_le _⟩

theorem clustersInvariant_removeMerge (maxSize : Nat) (clusters : List Cluster) (i j : Nat)
    (hinv : ClustersInvariant maxSize clusters)
    (hsize : (getCluster clusters i).Size + (getCluster clusters j).Size ≤ maxSize) :
    ClustersInvariant maxSize (RemoveClusters clusters i j ++
      [MergeClusters (getCluster clusters i) (getCluster clusters j)]) := by
  intro c hc
  rw [List.mem_append] at hc
  rcases hc with hc | hc
  · simp only [RemoveClusters] at hc
    exact hinv c (List.mem_of_mem_eraseIdx (List.mem_of_mem_eraseIdx hc))
  · rw [List.mem_singleton] at hc
    subst hc
    have hi' := getCluster_invariant maxSize clusters i hinv
    have hj' := getCluster_invariant maxSize clusters j hinv
    constructor
    · show (getCluster clusters i).Size + (getCluster clusters j).Size =
        ((getCluster clusters i).Indices ++ (getCluster clusters j).Indices).length
      rw [List.length_append]
      omega
    · exact hsize

/-- One unfolding of the loop at positive fuel, for rewriting. -/
theorem clusteringLoop_succ (maxSize nClusters fuel : Nat) (clusters : List Cluster)
    (m : List (List ℚ)) :
    clusteringLoop maxSize nClusters (fuel + 1) clusters m =
      if clusters.length ≤ nClusters then some clusters
      else if (FindClosestClusters m).1 = -1 ∨ (FindClosestClusters m).2 = -1 then
        some clusters
      else if (getCluster clusters (FindClosestClusters m).1.toNat).Size +
              (getCluster clusters (FindClosestClusters m).2.toNat).Size > maxSize then
        clusteringLoop maxSize nClusters fuel clusters
          (markExcluded m (FindClosestClusters m).1.toNat (FindClosestClusters m).2.toNat)
      else
        clusteringLoop maxSize nClusters fuel
          (RemoveClusters clusters (FindClosestClusters m).1.toNat
              (FindClosestClusters m).2.toNat ++
            [MergeClusters (getCluster clusters (FindClosestClusters m).1.toNat)
              (getCluster clusters (FindClosestClusters m).2.toNat)])
          (UpdateDistanceMatrix m
            (RemoveClusters clusters (FindClosestClusters m).1.toNat
                (FindClosestClusters m).2.toNat ++
              [MergeClusters (getCluster clusters (FindClosestClusters m).1.toNat)
                (getCluster clusters (FindClosestClusters m).2.toNat)])
            (MergeClusters (getCluster clusters (FindClosestClusters m).1.toNat)
              (getCluster clusters (FindClosestClusters m).2.toNat))
            (FindClosestClusters m).1.toNat (FindClosestClusters m).2.toNat) := rfl

theorem length_removeMerge (clusters : List Cluster) (i j : Nat)
    (hji : j < i) (hi : i < clusters.length) :
    (RemoveClusters clusters i j ++
      [MergeClusters (getCluster clusters i) (getCluster clusters j)]).length =
    clusters.length - 1 := by
  rw [List.length_append, removeClusters_eq clusters i j hji]
  rw [List.length_eraseIdx, List.length_eraseIdx, if_pos hi, if_pos (by omega)]
  simp only [List.length_cons, List.length_nil]
  omega

/-- Soundness of the agglomeration loop: when the loop exits normally, the
cluster bookkeeping invariant is preserved and the multiset of member indices
is conserved. -/
theorem clusteringLoop_sound (maxSize nClusters : Nat) :
    ∀ (fuel : Nat) (clusters : List Cluster) (m : List (List ℚ)) (out : List Cluster),
      MatrixInvariant m clusters.length →
      clusteringLoop maxSize nClusters fuel clusters m = some out →
      (ClustersInvariant maxSize clusters → ClustersInvariant maxSize out) ∧
      itemsOf out = itemsOf clusters := by
  intro fuel
  induction fuel with
  | zero =>
    intro clusters m out _ h
    exact absurd h (by simp [clusteringLoop])
  | succ fuel ih =>
    intro clusters m out hminv h
    rw [clusteringLoop_succ] at h
    by_cases hexit : clusters.length ≤ nClusters
    · rw [if_pos hexit] at h
      cases h
      exact ⟨id, rfl⟩
    · rw [if_neg hexit] at h
      by_cases hneg : (FindClosestClusters m).1 = -1 ∨ (FindClosestClusters m).2 = -1
      · rw [if_pos hneg] at h
        cases h
        exact ⟨id, rfl⟩
      · rw [if_neg hneg] at h
        have hne1 : (FindClosestClusters m).1 ≠ -1 := fun habs => hneg (Or.inl habs)
        obtain ⟨p, q, hfc1, hfc2, hqp, hpm, hent, _⟩ :=
          findClosestClusters_spec m (FindClosestClusters m).1 (FindClosestClusters m).2
            rfl hne1
        rw [hfc1, hfc2, Int.toNat_natCast, Int.toNat_natCast] at h
        have hplen : p < clusters.length := by
          rw [← hminv.1]
          exact hpm
        by_cases hover : (getCluster clusters p).Size + (getCluster clusters q).Size > maxSize
        · rw [if_pos hover] at h
          have hminv2 : MatrixInvariant (markExcluded m p q) clusters.length :=
            matrixInvariant_markExcluded m clusters.length p q hminv hqp hplen
          exact ih clusters (markExcluded m p q) out hminv2 h
        · rw [if_neg hover] at h
          have hlen2 : (RemoveClusters clusters p q ++
              [MergeClusters (getCluster clusters p) (getCluster clusters q)]).length =
              clusters.length - 1 := length_removeMerge clusters p q hqp hplen
          have h2le : 2 ≤ clusters.length := by omega
          have hminv2 : MatrixInvariant
              (UpdateDistanceMatrix m
                (RemoveClusters clusters p q ++
                  [MergeClusters (getCluster clusters p) (getCluster clusters q)])
                (MergeClusters (getCluster clusters p) (getCluster clusters q)) p q)
              (RemoveClusters clusters p q ++
                [MergeClusters (getCluster clusters p) (getCluster clusters q)]).length := by
            apply matrixInvariant_update
            · rw [hlen2]
              rw [show clusters.length - 1 + 1 = clusters.length by omega]
              exact hminv
            · exact hqp
            · rw [hlen2]
              omega
            · rw [hlen2]
              omega
          obtain ⟨hcl, hitems⟩ := ih _ _ out hminv2 h
          constructor
          · intro hinv0
            exact hcl (clustersInvariant_removeMerge maxSize clusters p q hinv0 (by omega))
          · rw [hitems, itemsOf_removeMerge clusters p q hqp hplen]

/-! Termination of the agglomeration loop (claim C10): each iteration either
merges, decreasing the number of live clusters, or writes the sentinel over a
previously finite scanned entry, decreasing the count of finite entries. -/

theorem filter_length_lt {α : Type} (l : List α) (pNew pOld : α → Bool)
    (hmono : ∀ x ∈ l, pNew x = true → pOld x = true)
    (x0 : α) (hx0 : x0 ∈ l) (hold : pOld x0 = true) (hnew : pNew x0 = false) :
    (l.filter pNew).length < (l.filter pOld).length := by
  obtain ⟨s, t, rfl⟩ := List.append_of_mem hx0
  rw [List.filter_append, List.filter_append, List.length_append, List.length_append,
    List.filter_cons, List.filter_cons]
  rw [if_pos hold, if_neg (by simp [hnew])]
  have hs : (s.filter pNew).length ≤ (s.filter pOld).length := by
    rw [← List.countP_eq_length_filter, ← List.countP_eq_length_filter]
    exact List.countP_mono_left fun x hx hpx =>
      hmono x (List.mem_append_left _ hx) hpx
  have ht : (t.filter pNew).length ≤ (t.filter pOld).length := by
    rw [← List.countP_eq_length_filter, ← List.countP_eq_length_filter]
    exact List.countP_mono_left fun x hx hpx =>
      hmono x (List.mem_append_right _ (List.mem_cons_of_mem x0 hx)) hpx
  simp only [List.length_cons]
  omega

/-- Number of scanned (lower-triangle) entries strictly below the sentinel. -/
def finiteCount (m : List (List ℚ)) : Nat :=
  ((scanPairs m.length).filter fun pq => decide (entryD m pq.1 pq.2 < maxFloat32)).length

theorem finiteCount_markExcluded (m : List (List ℚ)) (k p q : Nat)
    (hminv : MatrixInvariant m k) (hqp : q < p) (hpk : p < k)
    (hent : entryD m p q < maxFloat32) :
    finiteCount (markExcluded m p q) < finiteCount m := by
  obtain ⟨hlen, hrows, _, _⟩ := hminv
  have hml : (markExcluded m p q).length = m.length := length_markExcluded m p q
  have hME := entryD_markExcluded m k p q hlen hrows hqp hpk
  simp only [finiteCount, hml]
  apply filter_length_lt (scanPairs m.length) _ _ ?_ (p, q) ?_ ?_ ?_
  · intro x hx hxnew
    rw [mem_scanPairs] at hx
    obtain ⟨hx1, hx2⟩ := hx
    simp only [decide_eq_true_eq] at hxnew ⊢
    rw [hME x.1 x.2] at hxnew
    by_cases h1 : x.1 = p ∧ x.2 = q
    · rw [if_pos h1] at hxnew
      exact absurd hxnew (lt_irrefl _)
    · rw [if_neg h1, if_neg (by omega)] at hxnew
      exact hxnew
  · rw [mem_scanPairs]
    exact ⟨hqp, by rw [hlen]; exact hpk⟩
  · simp only [decide_eq_true_eq]
    exact hent
  · rw [decide_eq_false_iff_not]
    rw [hME p q, if_pos ⟨rfl, rfl⟩]
    exact lt_irrefl _

/-- One iteration of the loop from a state that does not exit immediately:
either the selected pair is excluded (finite count strictly drops and the
matrix invariant is kept) or it is merged (live count strictly drops). -/
theorem clusteringLoop_step (maxSize nClusters : Nat) (clusters : List Cluster)
    (m : List (List ℚ)) (hminv : MatrixInvariant m clusters.length) :
    (∀ fuel, clusteringLoop maxSize nClusters (fuel + 1) clusters m = some clusters) ∨
    (∃ p q : Nat, q < p ∧ p < clusters.length ∧ entryD m p q < maxFloat32 ∧
      ((∀ fuel, clusteringLoop maxSize nClusters (fuel + 1) clusters m =
          clusteringLoop maxSize nClusters fuel clusters (markExcluded m p q)) ∧
        MatrixInvariant (markExcluded m p q) clusters.length ∧
        finiteCount (markExcluded m p q) < finiteCount m
       ∨
       (∃ clusters2 m2,
         (∀ fuel, clusteringLoop maxSize nClusters (fuel + 1) clusters m =
            clusteringLoop maxSize nClusters fuel clusters2 m2) ∧
         MatrixInvariant m2 clusters2.length ∧
         clusters2.length = clusters.length - 1 ∧ 2 ≤ clusters.length))) := by
  by_cases hexit : clusters.length ≤ nClusters
  · left
    intro fuel
    rw [clusteringLoop_succ, if_pos hexit]
  · by_cases hneg : (FindClosestClusters m).1 = -1 ∨ (FindClosestClusters m).2 = -1
    · left
      intro fuel
      rw [clusteringLoop_succ, if_neg hexit, if_pos hneg]
    · right
      have hne1 : (FindClosestClusters m).1 ≠ -1 := fun habs => hneg (Or.inl habs)
      obtain ⟨p, q, hfc1, hfc2, hqp, hpm, hent, _⟩ :=
        findClosestClusters_spec m (FindClosestClusters m).1 (FindClosestClusters m).2
          rfl hne1
      have hplen : p < clusters.length := by
        rw [← hminv.1]
        exact hpm
      refine ⟨p, q, hqp, hplen, hent, ?_⟩
      by_cases hover : (getCluster clusters p).Size + (getCluster clusters q).Size > maxSize
      · left
        refine ⟨?_, matrixInvariant_markExcluded m clusters.length p q hminv hqp hplen,
          finiteCount_markExcluded m clusters.length p q hminv hqp hplen hent⟩
        intro fuel
        rw [clusteringLoop_succ, if_neg hexit, if_neg hneg, hfc1, hfc2,
          Int.toNat_natCast, Int.toNat_natCast, if_pos hover]
      · right
        have hlen2 : (RemoveClusters clusters p q ++
            [MergeClusters (getCluster clusters p) (getCluster clusters q)]).length =
            clusters.length - 1 := length_removeMerge clusters p q hqp hplen
        refine ⟨RemoveClusters clusters p q ++
            [MergeClusters (getCluster clusters p) (getCluster clusters q)],
          UpdateDistanceMatrix m
            (RemoveClusters clusters p q ++
              [MergeClusters (getCluster clusters p) (getCluster clusters q)])
            (MergeClusters (getCluster clusters p) (getCluster clusters q)) p q,
          ?_, ?_, hlen2, by omega⟩
        · intro fuel
          rw [clusteringLoop_succ, if_neg hexit, if_neg hneg, hfc1, hfc2,
            Int.toNat_natCast, Int.toNat_natCast, if_neg hover]
        · apply matrixInvariant_update
          · rw [hlen2, show clusters.length - 1 + 1 = clusters.length by omega]
            exact hminv
          · exact hqp
          · rw [hlen2]
            omega
          · rw [hlen2]
            omega

theorem clusteringLoop_terminates (maxSize nClusters : Nat) :
    ∀ (a : Nat) (clusters : List Cluster) (m : List (List ℚ)),
      clusters.length ≤ a → MatrixInvariant m clusters.length →
      ∃ fuel, (clusteringLoop maxSize nClusters fuel clusters m).isSome := by
  intro a
  induction a with
  | zero =>
    intro clusters m hla _
    refine ⟨1, ?_⟩
    have hle : clusters.length ≤ nClusters := by omega
    show (clusteringLoop maxSize nClusters (0 + 1) clusters m).isSome
    rw [clusteringLoop_succ, if_pos hle]
    rfl
  | succ a iha =>
    have inner : ∀ (c : Nat) (clusters : List Cluster) (m : List (List ℚ)),
        clusters.length ≤ a + 1 → MatrixInvariant m clusters.length → finiteCount m ≤ c →
        ∃ fuel, (clusteringLoop maxSize nClusters fuel clusters m).isSome := by
      intro c
      induction c with
      | zero =>
        intro clusters m hla hminv hfc
        rcases clusteringLoop_step maxSize nClusters clusters m hminv with hdone |
          ⟨p, q, hqp, hpl, hent, hcase⟩
        · refine ⟨1, ?_⟩
          have h := hdone 0
          rw [show (0 : Nat) + 1 = 1 from rfl] at h
          rw [h]
          rfl
        · rcases hcase with ⟨hstep, hminv2, hdec⟩ | ⟨cl2, m2, hstep, hminv2, hlen2, h2le⟩
          · omega
          · obtain ⟨fuel, hf⟩ := iha cl2 m2 (by omega) hminv2
            refine ⟨fuel + 1, ?_⟩
            rw [hstep fuel]
            exact hf
      | succ c ihc =>
        intro clusters m hla hminv hfc
        rcases clusteringLoop_step maxSize nClusters clusters m hminv with hdone |
          ⟨p, q, hqp, hpl, hent, hcase⟩
        · refine ⟨1, ?_⟩
          have h := hdone 0
          rw [show (0 : Nat) + 1 = 1 from rfl] at h
          rw [h]
          rfl
        · rcases hcase with ⟨hstep, hminv2, hdec⟩ | ⟨cl2, m2, hstep, hminv2, hlen2, h2le⟩
          · obtain ⟨fuel, hf⟩ := ihc clusters (markExcluded m p q) hla hminv2 (by omega)
            refine ⟨fuel + 1, ?_⟩
            rw [hstep fuel]
            exact hf
          · obtain ⟨fuel, hf⟩ := iha cl2 m2 (by omega) hminv2
            refine ⟨fuel + 1, ?_⟩
            rw [hstep fuel]
            exact hf
    intro clusters m hla hminv
    exact inner (finiteCount m) clusters m hla hminv (le_refl _)

/-! From the loop to PerformClusteringWithConstraints. -/

theorem handleOversized_id (fuel : Nat) (embeddings : List (List ℚ)) (maxSize : Nat) :
    ∀ (clusters : List Cluster), (∀ c ∈ clusters, c.Size ≤ maxSize) →
      handleOversized fuel embeddings maxSize clusters = some (some clusters) := by
  intro clusters
  induction clusters with
  | nil => intro _; rfl
  | cons c rest ih =>
    intro h
    have hc : ¬ c.Size > maxSize := by
      have := h c (List.mem_cons_self c rest)
      omega
    have hr := ih fun x hx => h x (List.mem_cons_of_mem c hx)
    simp only [handleOversized]
    rw [if_neg hc, hr]

theorem clustersToMap_mem (ids : List String) (minSize : Nat) :
    ∀ (clusters : List Cluster) (k0 : Nat) (pr : Nat × List String),
      pr ∈ clustersToMap ids minSize clusters k0 →
      ∃ c ∈ clusters, minSize ≤ c.Size ∧
        pr.2 = c.Indices.map fun idx => ids.getD idx "" := by
  intro clusters
  induction clusters with
  | nil =>
    intro k0 pr h
    simp [clustersToMap] at h
  | cons c rest ih =>
    intro k0 pr h
    simp only [clustersToMap] at h
    by_cases hcs : c.Size < minSize
    · rw [if_pos hcs] at h
      obtain ⟨c', hc', hrest⟩ := ih k0 pr h
      exact ⟨c', List.mem_cons_of_mem c hc', hrest⟩
    · rw [if_neg hcs] at h
      rcases List.mem_cons.mp h with rfl | h'
      · exact ⟨c, List.mem_cons_self c rest, by omega, rfl⟩
      · obtain ⟨c', hc', hrest⟩ := ih (k0 + 1) pr h'
        exact ⟨c', List.mem_cons_of_mem c hc', hrest⟩

theorem clustersToMap_le (ids : List String) (minSize : Nat) :
    ∀ (clusters : List Cluster) (k0 : Nat),
      (((clustersToMap ids minSize clusters k0).flatMap Prod.snd : List String) :
        Multiset String) ≤
      Multiset.map (fun idx => ids.getD idx "") (itemsOf clusters) := by
  intro clusters
  induction clusters with
  | nil =>
    intro k0
    simp only [clustersToMap, List.flatMap_nil]
    exact zero_le _
  | cons c rest ih =>
    intro k0
    rw [itemsOf_cons, Multiset.map_add]
    simp only [clustersToMap]
    by_cases hcs : c.Size < minSize
    · rw [if_pos hcs]
      exact le_trans (ih k0) (le_add_self)
    · rw [if_neg hcs]
      rw [List.flatMap_cons]
      rw [show (((c.Indices.map fun idx => ids.getD idx "") ++
          (clustersToMap ids minSize rest (k0 + 1)).flatMap Prod.snd : List String) :
          Multiset String) =
        ((c.Indices.map fun idx => ids.getD idx "" : List String) : Multiset String) +
          (((clustersToMap ids minSize rest (k0 + 1)).flatMap Prod.snd : List String) :
            Multiset String) from rfl]
      apply add_le_add
      · exact le_of_eq (by rw [Multiset.map_coe])
      · exact ih (k0 + 1)

theorem itemsOf_map_newCluster (f : Nat → List ℚ) :
    ∀ (l : List Nat), itemsOf (l.map fun i => NewCluster i (f i)) = (l : Multiset Nat)
  | [] => rfl
  | i :: rest => by
    rw [List.map_cons, itemsOf_cons, itemsOf_map_newCluster f rest]
    rfl

theorem map_getD_range {α : Type} (l : List α) (d : α) :
    (List.range l.length).map (fun i => l.getD i d) = l := by
  apply List.ext_getElem
  · simp
  · intro i h1 h2
    simp only [List.getElem_map, List.getElem_range]
    exact getD_eq_getElem l i d h2

/-- Shape of a successful run: the returned map is the assembly, with
minSize filtering, of a final cluster list that satisfies the bookkeeping
invariant and whose members are exactly the input positions 0..n-1. -/
theorem perform_success_shape (fuel : Nat) (embeddings : List (List ℚ)) (ids : List String)
    (minSize maxSize : Nat) (mres : List (Nat × List String))
    (h1 : 1 ≤ minSize) (h2 : minSize ≤ maxSize)
    (hsucc : PerformClusteringWithConstraints fuel embeddings ids minSize maxSize =
      some (mres, true)) :
    ∃ finalClusters : List Cluster,
      mres = clustersToMap ids minSize finalClusters 0 ∧
      ClustersInvariant maxSize finalClusters ∧
      itemsOf finalClusters = ((List.range embeddings.length : List Nat) : Multiset Nat) := by
  cases hcalc : CalculateOptimalClusters embeddings.length minSize maxSize with
  | error e =>
    simp only [PerformClusteringWithConstraints, hcalc] at hsucc
    simp at hsucc
  | ok nClusters =>
    simp only [PerformClusteringWithConstraints, hcalc] at hsucc
    cases hloop : clusteringLoop maxSize nClusters fuel
        ((List.range embeddings.length).map fun i => NewCluster i (getEmb embeddings i))
        (ComputeInitialDistanceMatrix ((List.range embeddings.length).map fun i =>
          NewCluster i (getEmb embeddings i))) with
    | none =>
      simp only [hloop] at hsucc
      exact Option.noConfusion hsucc
    | some cl2 =>
      simp only [hloop] at hsucc
      have hinv0 : ClustersInvariant maxSize
          ((List.range embeddings.length).map fun i =>
            NewCluster i (getEmb embeddings i)) := by
        intro c hc
        rw [List.mem_map] at hc
        obtain ⟨i, _, rfl⟩ := hc
        refine ⟨rfl, ?_⟩
        show 1 ≤ maxSize
        omega
      obtain ⟨hclinv, hitems⟩ := clusteringLoop_sound maxSize nClusters fuel _ _ cl2
        (matrixInvariant_initial _) hloop
      have hinv2 : ClustersInvariant maxSize cl2 := hclinv hinv0
      have hid := handleOversized_id fuel embeddings maxSize cl2
        fun c hc => (hinv2 c hc).2
      simp only [hid] at hsucc
      injection hsucc with h'
      obtain ⟨hmap, _⟩ := Prod.mk.injEq _ _ _ _ ▸ h'
      refine ⟨cl2, ?_, hinv2, ?_⟩
      · exact (congrArg Prod.fst h').symm
      · rw [hitems, itemsOf_map_newCluster]

/-- Claim C3: on success with 1 <= minSize <= maxSize, every cluster in the
returned map has between minSize and maxSize item ids. -/
theorem performClustering_size_compliance (fuel : Nat) (embeddings : List (List ℚ))
    (ids : List String) (minSize maxSize : Nat) (mres : List (Nat × List String))
    (pr : Nat × List String)
    (h1 : 1 ≤ minSize) (h2 : minSize ≤ maxSize)
    (hsucc : PerformClusteringWithConstraints fuel embeddings ids minSize maxSize =
      some (mres, true))
    (hpr : pr ∈ mres) :
    minSize ≤ pr.2.length ∧ pr.2.length ≤ maxSize := by
  obtain ⟨fc, hmres, hinv, _⟩ :=
    perform_success_shape fuel embeddings ids minSize maxSize mres h1 h2 hsucc
  rw [hmres] at hpr
  obtain ⟨c, hc, hcs, hsnd⟩ := clustersToMap_mem ids minSize fc 0 pr hpr
  obtain ⟨hsize, hmax⟩ := hinv c hc
  rw [hsnd, List.length_map]
  omega

/-- Witness for C3 at a concrete successful two-item run. -/
theorem performClustering_size_compliance_witness :
    1 ≤ ((0, ["b", "a"]) : Nat × List String).2.length ∧
    ((0, ["b", "a"]) : Nat × List String).2.length ≤ 2 :=
  performClustering_size_compliance 5 [[0], [1]] ["a", "b"] 1 2 [(0, ["b", "a"])]
    (0, ["b", "a"]) (by decide) (by decide) (by with_unfolding_all decide) (by decide)

/-- Claim C1 counterexample. Four 1-dimensional items with ids a, b, c, d and
minSize 2, maxSize 3: the loop merges items 1 and 0, then that pair with
item 2, and stops at two live clusters; the final conversion silently skips
the singleton cluster holding item 3 (size 1 < minSize 2) yet still reports
success, so id d is omitted from the output. -/
theorem performClustering_conservation_counterexample :
    PerformClusteringWithConstraints 10 [[0], [1/10], [1/5], [100]]
        ["a", "b", "c", "d"] 2 3 = some ([(0, ["b", "a", "c"])], true) ∧
    ¬ ((([(0, ["b", "a", "c"])] : List (Nat × List String)).flatMap Prod.snd :
        Multiset String) = (["a", "b", "c", "d"] : Multiset String)) := by
  constructor
  · with_unfolding_all decide
  · decide

/-- Claim C1 amended: on success every output item id occupies a distinct
input position — the multiset union of all output id lists is a sub-multiset
of the input id list (no duplication, nothing outside the input) — and it
equals the input id multiset exactly when the output id count matches the
input count, i.e. when no undersized cluster was dropped. -/
theorem performClustering_no_duplication (fuel : Nat) (embeddings : List (List ℚ))
    (ids : List String) (minSize maxSize : Nat) (mres : List (Nat × List String))
    (h1 : 1 ≤ minSize) (h2 : minSize ≤ maxSize) (hlen : ids.length = embeddings.length)
    (hsucc : PerformClusteringWithConstraints fuel embeddings ids minSize maxSize =
      some (mres, true)) :
    ((mres.flatMap Prod.snd : List String) : Multiset String) ≤ (ids : Multiset String) ∧
    ((mres.flatMap Prod.snd).length = ids.length →
      ((mres.flatMap Prod.snd : List String) : Multiset String) =
        (ids : Multiset String)) := by
  obtain ⟨fc, hmres, hinv, hitems⟩ :=
    perform_success_shape fuel embeddings ids minSize maxSize mres h1 h2 hsucc
  have hle : ((mres.flatMap Prod.snd : List String) : Multiset String) ≤
      (ids : Multiset String) := by
    rw [hmres]
    calc (((clustersToMap ids minSize fc 0).flatMap Prod.snd : List String) :
        Multiset String) ≤
        Multiset.map (fun idx => ids.getD idx "") (itemsOf fc) :=
          clustersToMap_le ids minSize fc 0
      _ = Multiset.map (fun idx => ids.getD idx "")
          ((List.range embeddings.length : List Nat) : Multiset Nat) := by rw [hitems]
      _ = (((List.range embeddings.length).map fun idx => ids.getD idx "" :
          List String) : Multiset String) := by rw [Multiset.map_coe]
      _ = (ids : Multiset String) := by rw [← hlen, map_getD_range]
  refine ⟨hle, fun hcard => Multiset.eq_of_le_of_card_le hle ?_⟩
  rw [Multiset.coe_card, Multiset.coe_card]
  omega

/-- Witness for the amended C1 at a concrete successful two-item run. -/
theorem performClustering_no_duplication_witness :
    ((([(0, ["b", "a"])] : List (Nat × List String)).flatMap Prod.snd : List String) :
        Multiset String) ≤ ((["a", "b"] : List String) : Multiset String) ∧
    ((([(0, ["b", "a"])] : List (Nat × List String)).flatMap Prod.snd).length =
        (["a", "b"] : List String).length →
      ((([(0, ["b", "a"])] : List (Nat × List String)).flatMap Prod.snd : List String) :
          Multiset String) = ((["a", "b"] : List String) : Multiset String)) :=
  performClustering_no_duplication 5 [[0], [1]] ["a", "b"] 1 2 [(0, ["b", "a"])]
    (by decide) (by decide) (by decide) (by with_unfolding_all decide)

/-- Claim C2 (code bug): splitCluster on an oversized cluster whose members
are the original item indices 2 and 3 (embeddings [[0],[0],[1],[5]],
maxSize 1) succeeds and every sub-cluster respects maxSize, but the
sub-clusters' Indices are the positions 0 and 1 inside the sub-problem, so
their union is {0, 1}, not the original member set {2, 3}; the caller then
feeds these positions to productReferenceIDs as if they were original item
indices. -/
theorem splitCluster_local_indices_bug :
    splitCluster 5 { Indices := [2, 3], Size := 2, Centroid := [0] }
        [[0], [0], [1], [5]] 1 =
      some (some [{ Indices := [0], Size := 1, Centroid := [1] },
        { Indices := [1], Size := 1, Centroid := [5] }]) ∧
    (∀ c ∈ ([{ Indices := [0], Size := 1, Centroid := [1] },
        { Indices := [1], Size := 1, Centroid := [5] }] : List Cluster), c.Size ≤ 1) ∧
    ¬ (itemsOf [{ Indices := ([0] : List Nat), Size := 1, Centroid := ([1] : List ℚ) },
        { Indices := [1], Size := 1, Centroid := [5] }] =
      (([2, 3] : List Nat) : Multiset Nat)) := by
  refine ⟨by with_unfolding_all decide, by decide, ?_⟩
  decide

/-- Claim C10: for every input there is a fuel bound with which the model of
PerformClusteringWithConstraints returns (the Go loop terminates): every
iteration either merges, strictly decreasing the live-cluster count, or
overwrites a finite scanned entry with the sentinel, strictly decreasing the
finite-entry count, and the loop exits at the target count or when
FindClosestClusters returns (-1, -1). -/
theorem performClustering_terminates (embeddings : List (List ℚ)) (ids : List String)
    (minSize maxSize : Nat) (h1 : 1 ≤ minSize) (h2 : minSize ≤ maxSize) :
    ∃ fuel, (PerformClusteringWithConstraints fuel embeddings ids minSize maxSize).isSome := by
  cases hcalc : CalculateOptimalClusters embeddings.length minSize maxSize with
  | error e =>
    refine ⟨1, ?_⟩
    simp [PerformClusteringWithConstraints, hcalc]
  | ok nClusters =>
    obtain ⟨fuel, hfuel⟩ := clusteringLoop_terminates maxSize nClusters
      ((List.range embeddings.length).map fun i =>
        NewCluster i (getEmb embeddings i)).length
      ((List.range embeddings.length).map fun i => NewCluster i (getEmb embeddings i))
      (ComputeInitialDistanceMatrix ((List.range embeddings.length).map fun i =>
        NewCluster i (getEmb embeddings i)))
      (le_refl _) (matrixInvariant_initial _)
    rw [Option.isSome_iff_exists] at hfuel
    obtain ⟨cl2, hcl2⟩ := hfuel
    have hinv0 : ClustersInvariant maxSize
        ((List.range embeddings.length).map fun i =>
          NewCluster i (getEmb embeddings i)) := by
      intro c hc
      rw [List.mem_map] at hc
      obtain ⟨i, _, rfl⟩ := hc
      refine ⟨rfl, ?_⟩
      show 1 ≤ maxSize
      omega
    obtain ⟨hclinv, _⟩ := clusteringLoop_sound maxSize nClusters fuel _ _ cl2
      (matrixInvariant_initial _) hcl2
    have hid := handleOversized_id fuel embeddings maxSize cl2
      fun c hc => ((hclinv hinv0) c hc).2
    refine ⟨fuel, ?_⟩
    simp only [PerformClusteringWithConstraints, hcalc, hcl2, hid]
    rfl

/-- Witness for C10 at a concrete one-item input. -/
theorem performClustering_terminates_witness :
    ∃ fuel, (PerformClusteringWithConstraints fuel [[0]] ["a"] 1 1).isSome :=
  performClustering_terminates [[0]] ["a"] 1 1 (by decide) (by decide)

instance (m : List (List ℚ)) (k : Nat) : Decidable (MatrixInvariant m k) := by
  unfold MatrixInvariant
  infer_instance

/-- Witness for C9: the three invariant statements applied at concrete
inputs: two singleton clusters, an update on a 2x2 matrix with removal
indices 1 > 0, and an exclusion on a 2x2 matrix. -/
theorem distanceMatrix_invariants_witness :
    MatrixInvariant
      (ComputeInitialDistanceMatrix [{ Indices := [0], Size := 1, Centroid := [0] },
        { Indices := [1], Size := 1, Centroid := [1] }])
      ([{ Indices := ([0] : List Nat), Size := 1, Centroid := ([0] : List ℚ) },
        { Indices := [1], Size := 1, Centroid := [1] }] : List Cluster).length ∧
    MatrixInvariant
      (UpdateDistanceMatrix [[0, 5], [5, 0]]
        [{ Indices := [0, 1], Size := 2, Centroid := [1/2] }]
        { Indices := [0, 1], Size := 2, Centroid := [1/2] } 1 0)
      ([{ Indices := ([0, 1] : List Nat), Size := 2,
          Centroid := ([1/2] : List ℚ) }] : List Cluster).length ∧
    MatrixInvariant (markExcluded [[0, 5], [5, 0]] 1 0) 2 :=
  ⟨distanceMatrix_invariants.1 _,
   distanceMatrix_invariants.2.1 [[0, 5], [5, 0]]
     [{ Indices := [0, 1], Size := 2, Centroid := [1/2] }]
     { Indices := [0, 1], Size := 2, Centroid := [1/2] } 1 0
     (by with_unfolding_all decide) (by decide) (by decide) (by decide),
   distanceMatrix_invariants.2.2 [[0, 5], [5, 0]] 2 1 0
     (by with_unfolding_all decide) (by decide) (by decide)⟩

